import Mathlib

/-
Verification of the expedantic configuration library's CLI/YAML
materialization pipeline: a shallow embedding of the relevant functions of
`src/expedantic/config_base.py` and `src/expedantic/utils.py`, together with
theorems about the deep-merge engine (`update_recursively`), the
flatten/rehydrate pair (`flatten_dict` and the un-flattening loop in
`ConfigBase.parse_args`), the mutual-exclusivity validator, the argument
synthesizer (`_parse_params`), and the tolerant argument parser
(`utils.ArgumentParser`).
-/

set_option autoImplicit false

namespace Expedantic

/-- Model of the Python values flowing through the pipeline: strings,
integers, booleans, `None`, the `_NOT_PROVIDED` sentinel singleton
(config_base.py line 36), lists (as produced by `nargs="*"` flags), and
dicts.  Python dicts are insertion-ordered maps; they are modelled as
association lists in insertion order. -/
inductive Val where
  | vstr : String → Val
  | vint : Int → Val
  | vbool : Bool → Val
  | vnone : Val
  | notProvided : Val
  | vlist : List Val → Val
  | vdict : List (String × Val) → Val
  deriving Repr

/-- Model of Python `d[k]` lookup on a dict: first (and only) entry with the
key, if any. -/
def pyGet (d : List (String × Val)) (k : String) : Option Val :=
  match d with
  | [] => none
  | (k2, v2) :: rest => if k2 = k then some v2 else pyGet rest k

/-- Model of Python `d[k] = v` on a dict: an existing key keeps its position
and gets the new value; a fresh key is appended at the end. -/
def pySet (d : List (String × Val)) (k : String) (v : Val) : List (String × Val) :=
  match d with
  | [] => [(k, v)]
  | (k2, v2) :: rest =>
    if k2 = k then (k2, v) :: rest else (k2, v2) :: pySet rest k v

/-- Model of Python `dict(items)`: entries inserted left to right, later
duplicates overriding earlier ones in place. -/
def pyDictOf (items : List (String × Val)) : List (String × Val) :=
  items.foldl (fun d p => pySet d p.1 p.2) []

/-- Model of Python `bool(v)` truthiness on the modelled values.  The
`NOT_PROVIDED` sentinel is a plain object and hence truthy. -/
def truthy : Val → Bool
  | .vstr s => !(s == "")
  | .vint n => !(n == 0)
  | .vbool b => b
  | .vnone => false
  | .notProvided => true
  | .vlist l => !l.isEmpty
  | .vdict d => !d.isEmpty

/-- Model of `update_recursively` (config_base.py lines 323-329).  The source
mutates `d` in place and returns it; the model threads the state.  For each
`(k, v)` of `other` in order: when `v` is a dict the source recurses into
`d.get(k, {})` regardless of whether that value is a dict — if it is not a
dict and `v` is nonempty, the recursive call raises (`AttributeError` on
`.get` or `TypeError` on item assignment), modelled as `none`; when `v` is
not a dict, `d[k] = v` (which raises when `d` itself is not a dict). -/
def updateRecursively (d : Val) (other : List (String × Val)) : Option Val :=
  match other with
  | [] => some d
  | (k, v) :: rest =>
    match v with
    | .vdict m =>
      match d with
      | .vdict dd =>
        match updateRecursively ((pyGet dd k).getD (.vdict [])) m with
        | none => none
        | some v2 => updateRecursively (.vdict (pySet dd k v2)) rest
      | _ => none
    | _ =>
      match d with
      | .vdict dd => updateRecursively (.vdict (pySet dd k v)) rest
      | _ => none

/-- Character-level model of Python `str.split` with a one-character
separator (the separator `sep` of `parse_args` at its default `"."` is one
character; the model fixes single-character separators throughout). -/
def splitCh (sep : Char) : List Char → List (List Char)
  | [] => [[]]
  | c :: cs =>
    match splitCh sep cs with
    | [] => [[]]
    | g :: gs => if c = sep then [] :: g :: gs else (c :: g) :: gs

/-- Model of Python `k.split(sep)` on strings, for a one-character
separator. -/
def pySplit (sep : Char) (s : String) : List String :=
  (splitCh sep s.data).map (fun cs => { data := cs })

/-- `keys[:-1]` and `keys[-1]` of the nonempty list `a :: l`. -/
def initLast (a : String) : List String → List String × String
  | [] => ([], a)
  | b :: bs =>
    let p := initLast b bs
    (a :: p.1, p.2)

/-- Model of the nested-insertion walk of one flat key in
`ConfigBase.parse_args` (config_base.py lines 318-321): descend through the
intermediate segments with `setdefault(key, {})`, then assign the last
segment.  When an intermediate segment maps to a non-dict, `setdefault`
returns it and the next `setdefault`/item assignment on it raises
(`AttributeError`/`TypeError`), modelled as `none`. -/
def insertSeg (d : List (String × Val)) : List String → String → Val → Option (List (String × Val))
  | [], last, v => some (pySet d last v)
  | k :: ks, last, v =>
    match pyGet d k with
    | none =>
      match insertSeg [] ks last v with
      | none => none
      | some sub => some (pySet d k (.vdict sub))
    | some (.vdict sub) =>
      match insertSeg sub ks last v with
      | none => none
      | some sub2 => some (pySet d k (.vdict sub2))
    | some _ => none

/-- One iteration of the rehydration loop in `ConfigBase.parse_args`
(config_base.py lines 314-321): values that are (identically) the
`NOT_PROVIDED` sentinel are skipped; otherwise the key is split on the
separator and the value inserted along the segment path. -/
def insertFlat (sep : Char) (d : List (String × Val)) (k : String) (v : Val) :
    Option (List (String × Val)) :=
  match v with
  | .notProvided => some d
  | _ =>
    match pySplit sep k with
    | [] => none
    | s :: ss =>
      let p := initLast s ss
      insertSeg d p.1 p.2 v

/-- Model of the whole rehydration loop of `ConfigBase.parse_args`
(config_base.py lines 313-321): fold `insertFlat` over the parsed flat
dict's entries in order, starting from the empty `nested_args_dict`. -/
def rehydrate (sep : Char) (flat : List (String × Val)) : Option (List (String × Val)) :=
  flat.foldl
    (fun acc p =>
      match acc with
      | none => none
      | some d => insertFlat sep d p.1 p.2)
    (some [])

/-- The item list accumulated by `flatten_dict` (utils.py lines 35-43)
before the final `dict(items)`: dict values are flattened recursively under
`parent_key + sep + k` (just `k` when `parent_key` is empty/falsy), other
values become single items. -/
def flattenItems (sep : Char) (parentKey : String) : List (String × Val) → List (String × Val)
  | [] => []
  | (k, v) :: rest =>
    let newKey := if parentKey == "" then k else parentKey ++ sep.toString ++ k
    (match v with
     | .vdict m => pyDictOf (flattenItems sep newKey m)
     | _ => [(newKey, v)]) ++ flattenItems sep parentKey rest

/-- Model of `flatten_dict` (utils.py lines 35-43). -/
def flatten_dict (sep : Char) (parentKey : String) (d : List (String × Val)) :
    List (String × Val) :=
  pyDictOf (flattenItems sep parentKey d)

mutual

/-- Well-formedness of a modelled Python dict body: keys are unique at every
level, as Python dict semantics guarantees. -/
def wfPairs : List (String × Val) → Bool
  | [] => true
  | (k, v) :: rest => !(rest.any (fun q => q.1 == k)) && wfVal v && wfPairs rest

/-- Well-formedness of a modelled Python value (unique dict keys at every
level). -/
def wfVal : Val → Bool
  | .vdict m => wfPairs m
  | .vlist l => wfList l
  | _ => true

/-- Well-formedness of a list of modelled Python values. -/
def wfList : List Val → Bool
  | [] => true
  | v :: vs => wfVal v && wfList vs

end

mutual

/-- Conditions on a nested mapping under which flattening is collision-free
and invertible: at every level keys are nonempty, contain no occurrence of
the separator and are unique, no value is the `NOT_PROVIDED` sentinel, and
every nested dict value is nonempty. -/
def goodPairs (sep : Char) : List (String × Val) → Bool
  | [] => true
  | (k, v) :: rest =>
    !(k == "") && !(k.data.contains sep) && !(rest.any (fun q => q.1 == k)) &&
      goodVal sep v && goodPairs sep rest

/-- `goodPairs` at the level of a single value: nested dicts are nonempty
and recursively good, the sentinel is excluded, all other values are
leaves. -/
def goodVal (sep : Char) : Val → Bool
  | .vdict m => !m.isEmpty && goodPairs sep m
  | .notProvided => false
  | _ => true

end

mutual

/-- `true` when no value in the dict body contains the `NOT_PROVIDED`
sentinel anywhere. -/
def sentFreePairs : List (String × Val) → Bool
  | [] => true
  | (_, v) :: rest => sentFreeVal v && sentFreePairs rest

/-- `true` when the value contains no occurrence of the `NOT_PROVIDED`
sentinel. -/
def sentFreeVal : Val → Bool
  | .notProvided => false
  | .vdict m => sentFreePairs m
  | .vlist l => sentFreeList l
  | _ => true

/-- `true` when no value in the list contains the `NOT_PROVIDED`
sentinel. -/
def sentFreeList : List Val → Bool
  | [] => true
  | v :: vs => sentFreeVal v && sentFreeList vs

end

/-- The keys of a dict body, in order. -/
def keysOf (d : List (String × Val)) : List String :=
  d.map Prod.fst

theorem pyGet_pySet_self (d : List (String × Val)) (k : String) (v : Val) :
    pyGet (pySet d k v) k = some v := by
  induction d with
  | nil => simp [pySet, pyGet]
  | cons p rest ih =>
    obtain ⟨k2, v2⟩ := p
    by_cases h : k2 = k
    · simp [pySet, pyGet, h]
    · simp [pySet, pyGet, h, ih]

theorem pyGet_pySet_ne (d : List (String × Val)) (k k2 : String) (v : Val)
    (h : k2 ≠ k) : pyGet (pySet d k v) k2 = pyGet d k2 := by
  have hk : ¬ k = k2 := fun h2 => h h2.symm
  induction d with
  | nil => simp [pySet, pyGet, hk]
  | cons p rest ih =>
    obtain ⟨k3, v3⟩ := p
    by_cases h3 : k3 = k
    · subst h3
      simp [pySet, pyGet, hk]
    · by_cases h4 : k3 = k2 <;> simp [pySet, pyGet, h3, h4, ih, h]

theorem pyGet_eq_none_iff (d : List (String × Val)) (k : String) :
    pyGet d k = none ↔ ∀ p ∈ d, p.1 ≠ k := by
  induction d with
  | nil => simp [pyGet]
  | cons p rest ih =>
    obtain ⟨k2, v2⟩ := p
    by_cases h : k2 = k <;> simp [pyGet, h, ih]

theorem pySet_fresh (d : List (String × Val)) (k : String) (v : Val)
    (h : pyGet d k = none) : pySet d k v = d ++ [(k, v)] := by
  induction d with
  | nil => simp [pySet]
  | cons p rest ih =>
    obtain ⟨k2, v2⟩ := p
    by_cases h2 : k2 = k
    · simp [pyGet, h2] at h
    · simp [pyGet, h2] at h
      simp [pySet, h2, ih h]

theorem pyGet_append_none (d l : List (String × Val)) (k : String)
    (h : pyGet d k = none) : pyGet (d ++ l) k = pyGet l k := by
  induction d with
  | nil => simp
  | cons p rest ih =>
    obtain ⟨k2, v2⟩ := p
    by_cases h2 : k2 = k
    · simp [pyGet, h2] at h
    · simp [pyGet, h2] at h ⊢
      exact ih h

theorem pyGet_append_some (d l : List (String × Val)) (k : String) (v : Val)
    (h : pyGet d k = some v) : pyGet (d ++ l) k = some v := by
  induction d with
  | nil => simp [pyGet] at h
  | cons p rest ih =>
    obtain ⟨k2, v2⟩ := p
    by_cases h2 : k2 = k
    · simp [pyGet, h2] at h ⊢
      exact h
    · simp [pyGet, h2] at h ⊢
      exact ih h

theorem pySet_pySet_same (d : List (String × Val)) (k : String) (v w : Val) :
    pySet (pySet d k v) k w = pySet d k w := by
  induction d with
  | nil => simp [pySet]
  | cons p rest ih =>
    obtain ⟨k2, v2⟩ := p
    by_cases h : k2 = k <;> simp [pySet, h, ih]

theorem pySet_append_last (d : List (String × Val)) (k : String) (v w : Val)
    (h : pyGet d k = none) : pySet (d ++ [(k, v)]) k w = d ++ [(k, w)] := by
  induction d with
  | nil => simp [pySet]
  | cons p rest ih =>
    obtain ⟨k2, v2⟩ := p
    by_cases h2 : k2 = k
    · simp [pyGet, h2] at h
    · simp [pyGet, h2] at h
      simp [pySet, h2, ih h]

theorem updateRecursively_nil (d : Val) : updateRecursively d [] = some d := by
  simp [updateRecursively]

/-- On a non-dict first argument and a nonempty overlay, the recursive merge
raises (iterating the overlay performs `d.get`/`d[k] =` on the
non-dict). -/
theorem updateRecursively_nondict (b : Val) (p : String × Val)
    (rest : List (String × Val)) (hb : ∀ bb, b ≠ Val.vdict bb) :
    updateRecursively b (p :: rest) = none := by
  obtain ⟨k0, v0⟩ := p
  cases v0 <;> cases b <;> simp [updateRecursively] <;> exact absurd rfl (hb _)

/-- A successful merge whose first argument is a dict returns a dict. -/
theorem updateRecursively_shape (other : List (String × Val)) :
    ∀ (dd : List (String × Val)) (r : Val),
      updateRecursively (.vdict dd) other = some r → ∃ res, r = Val.vdict res := by
  induction other with
  | nil =>
    intro dd r h
    simp [updateRecursively] at h
    exact ⟨dd, h.symm⟩
  | cons p rest ih =>
    intro dd r h
    obtain ⟨k, v⟩ := p
    cases v <;> simp only [updateRecursively] at h
    case vdict m =>
      cases hm : updateRecursively ((pyGet dd k).getD (.vdict [])) m with
      | none => simp [hm] at h
      | some v2 =>
        simp only [hm] at h
        exact ih _ _ h
    all_goals exact ih _ _ h

/-- Keys not mentioned by the overlay keep their base value. -/
theorem updateRecursively_pyGet_notMem (other : List (String × Val)) :
    ∀ (dd res : List (String × Val)) (k : String),
      (∀ p ∈ other, p.1 ≠ k) →
      updateRecursively (.vdict dd) other = some (.vdict res) →
      pyGet res k = pyGet dd k := by
  induction other with
  | nil =>
    intro dd res k _ h
    simp [updateRecursively] at h
    rw [← h]
  | cons p rest ih =>
    intro dd res k hk h
    obtain ⟨k2, v2⟩ := p
    have hk2 : k2 ≠ k := hk (k2, v2) (List.mem_cons_self _ _)
    have hkrest : ∀ p ∈ rest, p.1 ≠ k := fun p hp => hk p (List.mem_cons_of_mem _ hp)
    cases v2 <;> simp only [updateRecursively] at h
    case vdict m =>
      cases hm : updateRecursively ((pyGet dd k2).getD (.vdict [])) m with
      | none => simp [hm] at h
      | some v2 =>
        simp only [hm] at h
        rw [ih _ _ _ hkrest h]
        exact pyGet_pySet_ne _ _ _ _ (fun h2 => hk2 h2.symm)
    all_goals
      rw [ih _ _ _ hkrest h]
      exact pyGet_pySet_ne _ _ _ _ (fun h2 => hk2 h2.symm)

/-- Overlay precedence at non-dict values: the merged result holds the
overlay value. -/
theorem updateRecursively_leaf (other : List (String × Val)) :
    ∀ (dd res : List (String × Val)) (k : String) (v : Val),
      (∀ m, v ≠ Val.vdict m) → (k, v) ∈ other → (keysOf other).Nodup →
      updateRecursively (.vdict dd) other = some (.vdict res) →
      pyGet res k = some v := by
  induction other with
  | nil => intro _ _ _ _ _ hmem; simp at hmem
  | cons p rest ih =>
    intro dd res k v hnd hmem hnodup h
    obtain ⟨k2, v2⟩ := p
    have hnodup2 : (keysOf rest).Nodup := (List.nodup_cons.mp hnodup).2
    rcases List.mem_cons.mp hmem with heq | hmem2
    · obtain ⟨hek, hev⟩ := Prod.mk.injEq .. ▸ heq
      subst hek; subst hev
      have hknotin : ∀ p ∈ rest, p.1 ≠ k := by
        intro p hp hpk
        have hmm : p.1 ∈ keysOf rest := List.mem_map_of_mem Prod.fst hp
        exact (List.nodup_cons.mp hnodup).1 (hpk ▸ hmm)
      cases v <;> simp only [updateRecursively] at h <;>
        first
        | exact absurd rfl (hnd _)
        | rw [updateRecursively_pyGet_notMem rest _ _ _ hknotin h, pyGet_pySet_self]
    · have hk2 : k ∈ keysOf rest := List.mem_map_of_mem Prod.fst hmem2
      cases v2 <;> simp only [updateRecursively] at h
      case vdict m =>
        cases hm : updateRecursively ((pyGet dd k2).getD (.vdict [])) m with
        | none => simp [hm] at h
        | some v2 =>
          simp only [hm] at h
          exact ih _ _ _ _ hnd hmem2 hnodup2 h
      all_goals exact ih _ _ _ _ hnd hmem2 hnodup2 h

/-- When the overlay holds a dict at `k` and the base holds a dict at `k`,
the merge recurses: the result at `k` is the recursive merge of the two. -/
theorem updateRecursively_nested (other : List (String × Val)) :
    ∀ (dd res sub : List (String × Val)) (k : String) (m : List (String × Val)),
      (k, Val.vdict m) ∈ other → (keysOf other).Nodup →
      pyGet dd k = some (.vdict sub) →
      updateRecursively (.vdict dd) other = some (.vdict res) →
      ∃ r, updateRecursively (.vdict sub) m = some r ∧ pyGet res k = some r := by
  induction other with
  | nil => intro _ _ _ _ _ hmem; simp at hmem
  | cons p rest ih =>
    intro dd res sub k m hmem hnodup hsub h
    obtain ⟨k2, v2⟩ := p
    have hnodup2 : (keysOf rest).Nodup := (List.nodup_cons.mp hnodup).2
    rcases List.mem_cons.mp hmem with heq | hmem2
    · obtain ⟨hek, hev⟩ := Prod.mk.injEq .. ▸ heq
      subst hek; subst hev
      have hknotin : ∀ p ∈ rest, p.1 ≠ k := by
        intro p hp hpk
        have hmm : p.1 ∈ keysOf rest := List.mem_map_of_mem Prod.fst hp
        exact (List.nodup_cons.mp hnodup).1 (hpk ▸ hmm)
      simp only [updateRecursively] at h
      rw [hsub] at h
      cases hm : updateRecursively (Option.getD (some (Val.vdict sub)) (.vdict [])) m with
      | none => rw [hm] at h; simp at h
      | some v2 =>
        rw [hm] at h
        refine ⟨v2, by simpa using hm, ?_⟩
        rw [updateRecursively_pyGet_notMem rest _ _ _ hknotin h, pyGet_pySet_self]
    · have hk2 : k ∈ keysOf rest := List.mem_map_of_mem Prod.fst hmem2
      have hk2ne : k2 ≠ k := fun he => (List.nodup_cons.mp hnodup).1 (he ▸ hk2)
      cases v2 <;> simp only [updateRecursively] at h
      case vdict m2 =>
        cases hm : updateRecursively ((pyGet dd k2).getD (.vdict [])) m2 with
        | none => simp [hm] at h
        | some v2 =>
          simp only [hm] at h
          exact ih _ _ _ _ _ hmem2 hnodup2
            (by rw [pyGet_pySet_ne _ _ _ _ (fun h2 => hk2ne h2.symm)]; exact hsub) h
      all_goals
        exact ih _ _ _ _ _ hmem2 hnodup2
          (by rw [pyGet_pySet_ne _ _ _ _ (fun h2 => hk2ne h2.symm)]; exact hsub) h

/-- When the overlay holds a nonempty dict at `k` but the base holds a
non-dict there, the merge raises (modelled as `none`) instead of replacing
the base value wholesale. -/
theorem updateRecursively_clash (other : List (String × Val)) :
    ∀ (dd : List (String × Val)) (k : String) (m : List (String × Val)) (b : Val),
      (k, Val.vdict m) ∈ other → m ≠ [] → (keysOf other).Nodup →
      pyGet dd k = some b → (∀ bb, b ≠ Val.vdict bb) →
      updateRecursively (.vdict dd) other = none := by
  induction other with
  | nil => intro _ _ _ _ hmem; simp at hmem
  | cons p rest ih =>
    intro dd k m b hmem hm hnodup hb hbd
    obtain ⟨k2, v2⟩ := p
    have hnodup2 : (keysOf rest).Nodup := (List.nodup_cons.mp hnodup).2
    rcases List.mem_cons.mp hmem with heq | hmem2
    · obtain ⟨hek, hev⟩ := Prod.mk.injEq .. ▸ heq
      subst hek; subst hev
      simp only [updateRecursively]
      rw [hb]
      obtain ⟨p0, ms, hms⟩ : ∃ p0 ms, m = p0 :: ms := by
        cases m with
        | nil => exact absurd rfl hm
        | cons p0 ms => exact ⟨p0, ms, rfl⟩
      subst hms
      rw [show Option.getD (some b) (Val.vdict []) = b from rfl,
        updateRecursively_nondict b p0 ms hbd]
    · have hk2 : k ∈ keysOf rest := List.mem_map_of_mem Prod.fst hmem2
      have hk2ne : k2 ≠ k := fun he => (List.nodup_cons.mp hnodup).1 (he ▸ hk2)
      cases v2 <;> simp only [updateRecursively]
      case vdict m2 =>
        cases hm2 : updateRecursively ((pyGet dd k2).getD (.vdict [])) m2 with
        | none => rfl
        | some v2 =>
          exact ih _ _ _ _ hmem2 hm hnodup2
            (by rw [pyGet_pySet_ne _ _ _ _ (fun h2 => hk2ne h2.symm)]; exact hb) hbd
      all_goals
        exact ih _ _ _ _ hmem2 hm hnodup2
          (by rw [pyGet_pySet_ne _ _ _ _ (fun h2 => hk2ne h2.symm)]; exact hb) hbd

/-- Merging a well-formed overlay into a base dict disjoint from it appends
the overlay's entries in order (dict values being rebuilt recursively from
empty dicts). -/
theorem updateRecursively_fresh :
    ∀ (m dd : List (String × Val)), wfPairs m = true →
      (∀ p ∈ m, pyGet dd p.1 = none) →
      updateRecursively (.vdict dd) m = some (.vdict (dd ++ m))
  | [], dd, _, _ => by simp [updateRecursively]
  | (k, v) :: rest, dd, hwf, hfresh => by
    rw [wfPairs] at hwf
    simp only [Bool.and_eq_true] at hwf
    obtain ⟨⟨hknotin, hwfv⟩, hwfrest⟩ := hwf
    have hfk : pyGet dd k = none := hfresh (k, v) (List.mem_cons_self _ _)
    have hkne : ∀ p ∈ rest, p.1 ≠ k := by
      intro p hp
      simp only [Bool.not_eq_true', List.any_eq_false] at hknotin
      simpa using hknotin p hp
    have hfresh2 : ∀ (w : Val) (p : String × Val), p ∈ rest →
        pyGet (dd ++ [(k, w)]) p.1 = none := by
      intro w p hp
      rw [pyGet_append_none _ _ _ (hfresh p (List.mem_cons_of_mem _ hp))]
      have hne : ¬ k = p.1 := fun h => hkne p hp h.symm
      simp [pyGet, hne]
    cases v
    case vdict m2 =>
      rw [wfVal] at hwfv
      simp only [updateRecursively, hfk, Option.getD_none,
        updateRecursively_fresh m2 [] hwfv (by intro p hp; rfl),
        List.nil_append, pySet_fresh dd k _ hfk,
        updateRecursively_fresh rest (dd ++ [(k, Val.vdict m2)]) hwfrest
          (hfresh2 (Val.vdict m2)),
        List.append_assoc, List.singleton_append]
    all_goals
      simp only [updateRecursively, pySet_fresh dd k _ hfk,
        updateRecursively_fresh rest _ hwfrest (hfresh2 _),
        List.append_assoc, List.singleton_append]
  termination_by m => sizeOf m
  decreasing_by all_goals (subst_vars; simp_wf; try omega)

/-- C7 — Deep-merge identities: merging any value with an empty overlay
returns it unchanged (`update_recursively` iterates `other.items()` and
performs no assignment), and merging an empty base dict with any
well-formed overlay dict returns a dict structurally equal to the
overlay. -/
theorem C7_merge_identities :
    (∀ d : Val, updateRecursively d [] = some d) ∧
    (∀ m : List (String × Val), wfPairs m = true →
      updateRecursively (.vdict []) m = some (.vdict m)) := by
  constructor
  · exact updateRecursively_nil
  · intro m hwf
    simpa using updateRecursively_fresh m [] hwf (by intro p hp; rfl)

/-- C7 witness: the identities evaluated at `base = {"a": 1}` with empty
overlay, and at empty base with overlay `{"a": {"b": 2}}`. -/
theorem C7_merge_identities_witness :
    updateRecursively (.vdict [("a", .vint 1)]) [] = some (.vdict [("a", .vint 1)]) ∧
    updateRecursively (.vdict []) [("a", .vdict [("b", .vint 2)])]
      = some (.vdict [("a", .vdict [("b", .vint 2)])]) :=
  ⟨C7_merge_identities.1 _, C7_merge_identities.2 _ (by decide)⟩


/-- C1 counterexample: merging base `{"a": 5}` with overlay `{"a": {}}`
returns `{"a": 5}` — the base value survives, contradicting the claim that
a nested mapping in the overlay replaces a non-mapping in the base
wholesale (which would give `{"a": {}}`).  With the nonempty overlay
`{"a": {"b": 1}}` the merge raises instead of replacing. -/
theorem C1_counterexample :
    updateRecursively (.vdict [("a", .vint 5)]) [("a", .vdict [])]
      = some (.vdict [("a", .vint 5)]) ∧
    updateRecursively (.vdict [("a", .vint 5)]) [("a", .vdict [])]
      ≠ some (.vdict [("a", .vdict [])]) ∧
    updateRecursively (.vdict [("a", .vint 5)]) [("a", .vdict [("b", .vint 1)])]
      = none := by
  have h1 : updateRecursively (.vdict [("a", Val.vint 5)]) [("a", .vdict [])]
      = some (.vdict [("a", .vint 5)]) := by
    simp [updateRecursively, pyGet, pySet]
  have h3 : updateRecursively (.vdict [("a", Val.vint 5)]) [("a", .vdict [("b", .vint 1)])]
      = none := by
    simp [updateRecursively, pyGet, pySet]
  refine ⟨h1, ?_, h3⟩
  rw [h1]
  simp

/-- C1 amended — For every key of a Nodup-keyed overlay merged into a base
dict: (i) when the overlay value is not a mapping it replaces or is
inserted wholesale, so any leaf key present in both sides holds the overlay
value in the result; (ii) the merge recurses whenever the overlay value is
a mapping and the base holds a mapping at the same key; (iii) but when the
overlay value is a nonempty mapping and the base holds a non-mapping at the
same key, `update_recursively` raises (`AttributeError`/`TypeError`) rather
than replacing the base value wholesale. -/
theorem C1_amended_deep_merge :
    (∀ (other dd res : List (String × Val)) (k : String) (v : Val),
      (∀ m, v ≠ Val.vdict m) → (k, v) ∈ other → (keysOf other).Nodup →
      updateRecursively (.vdict dd) other = some (.vdict res) →
      pyGet res k = some v) ∧
    (∀ (other dd res sub m : List (String × Val)) (k : String),
      (k, Val.vdict m) ∈ other → (keysOf other).Nodup →
      pyGet dd k = some (.vdict sub) →
      updateRecursively (.vdict dd) other = some (.vdict res) →
      ∃ r, updateRecursively (.vdict sub) m = some r ∧ pyGet res k = some r) ∧
    (∀ (other dd m : List (String × Val)) (k : String) (b : Val),
      (k, Val.vdict m) ∈ other → m ≠ [] → (keysOf other).Nodup →
      pyGet dd k = some b → (∀ bb, b ≠ Val.vdict bb) →
      updateRecursively (.vdict dd) other = none) := by
  refine ⟨?_, ?_, ?_⟩
  · intro other dd res k v hnd hmem hnodup h
    exact updateRecursively_leaf other dd res k v hnd hmem hnodup h
  · intro other dd res sub m k hmem hnodup hsub h
    exact updateRecursively_nested other dd res sub k m hmem hnodup hsub h
  · intro other dd m k b hmem hm hnodup hb hbd
    exact updateRecursively_clash other dd k m b hmem hm hnodup hb hbd

/-- C1 amended witness: the three cases at concrete inputs — overlay leaf
`7` beats base leaf `1` at `"a"`; overlay `{"b": 2}` merged into base
`{"b": 1}` under `"a"` recurses; overlay `{"b": 1}` over base leaf `5`
raises. -/
theorem C1_amended_deep_merge_witness :
    pyGet [("a", .vint 7)] "a" = some (.vint 7) ∧
    (∃ r, updateRecursively (.vdict [("b", .vint 1)]) [("b", .vint 2)] = some r ∧
      pyGet [("a", .vdict [("b", .vint 2)])] "a" = some r) ∧
    updateRecursively (.vdict [("a", .vint 5)]) [("a", .vdict [("b", .vint 1)])] = none := by
  refine ⟨?_, ?_, ?_⟩
  · exact C1_amended_deep_merge.1 [("a", .vint 7)] [("a", .vint 1)] [("a", .vint 7)]
      "a" (.vint 7) (by simp) (by simp) (by simp [keysOf])
      (by simp [updateRecursively, pyGet, pySet])
  · exact C1_amended_deep_merge.2.1 [("a", .vdict [("b", .vint 2)])] [("a", .vdict [("b", .vint 1)])]
      [("a", .vdict [("b", .vint 2)])] [("b", .vint 1)] [("b", .vint 2)]
      "a" (by simp) (by simp [keysOf]) (by simp [pyGet])
      (by simp [updateRecursively, pyGet, pySet])
  · exact C1_amended_deep_merge.2.2 [("a", .vdict [("b", .vint 1)])] [("a", .vint 5)]
      [("b", .vint 1)] "a" (.vint 5) (by simp) (by simp) (by simp [keysOf])
      (by simp [pyGet]) (by simp)

mutual

/-- Structural equality test on modelled values, modelling Python `==` on
the value universe used here. -/
def beqV : Val → Val → Bool
  | .vstr a, .vstr b => a == b
  | .vint a, .vint b => a == b
  | .vbool a, .vbool b => a == b
  | .vnone, .vnone => true
  | .notProvided, .notProvided => true
  | .vlist a, .vlist b => beqL a b
  | .vdict a, .vdict b => beqP a b
  | _, _ => false

/-- Elementwise `beqV` on value lists. -/
def beqL : List Val → List Val → Bool
  | [], [] => true
  | a :: as2, b :: bs => beqV a b && beqL as2 bs
  | _, _ => false

/-- Elementwise key/value equality on dict bodies. -/
def beqP : List (String × Val) → List (String × Val) → Bool
  | [], [] => true
  | (k1, v1) :: as2, (k2, v2) :: bs => k1 == k2 && beqV v1 v2 && beqP as2 bs
  | _, _ => false

end

instance : BEq Val := ⟨beqV⟩

/-- Model of `ConfigBase.check_mutually_exclusive_sets` (config_base.py
lines 361-369), which pydantic runs as an `@model_validator(mode="after")`
once all individual field validation has succeeded: for each declared
mutually exclusive set, count the member keys whose field value is truthy;
unless that count is exactly one, raise a single `ValueError` naming the
set (modelled as `some` of the first violated set; `none` is success).
A Python `set[str]` is modelled as the list of its elements — the count is
independent of iteration order — and `get` models `self[key]` field
access. -/
def check_mutually_exclusive_sets (sets : List (List String)) (get : String → Val) :
    Option (List String) :=
  match sets with
  | [] => none
  | s :: rest =>
    if s.countP (fun k => truthy (get k)) = 1 then check_mutually_exclusive_sets rest get
    else some s

/-- C5 — Mutual exclusivity validation: the post-validation pass succeeds
iff every declared mutually-exclusive set has exactly one truthy member;
on failure it reports a single violated set (not per-field errors); and for
a two-element boolean set `{a, b}` exactly the assignments with `a ≠ b`
pass, so `(True, True)` and `(False, False)` are both rejected. -/
theorem C5_mutually_exclusive_sets :
    (∀ (sets : List (List String)) (get : String → Val),
      check_mutually_exclusive_sets sets get = none ↔
        ∀ s ∈ sets, s.countP (fun k => truthy (get k)) = 1) ∧
    (∀ (sets : List (List String)) (get : String → Val) (e : List String),
      check_mutually_exclusive_sets sets get = some e →
        e ∈ sets ∧ e.countP (fun k => truthy (get k)) ≠ 1) ∧
    (∀ a b : Bool,
      (check_mutually_exclusive_sets [["a", "b"]]
        (fun k => if k = "a" then .vbool a else .vbool b) = none) ↔ a ≠ b) := by
  refine ⟨?_, ?_, ?_⟩
  · intro sets get
    induction sets with
    | nil => simp [check_mutually_exclusive_sets]
    | cons s rest ih =>
      by_cases h : s.countP (fun k => truthy (get k)) = 1 <;>
        simp [check_mutually_exclusive_sets, h, ih]
  · intro sets get e
    induction sets with
    | nil => simp [check_mutually_exclusive_sets]
    | cons s rest ih =>
      by_cases h : s.countP (fun k => truthy (get k)) = 1
      · simp only [check_mutually_exclusive_sets, if_pos h]
        intro he
        obtain ⟨h1, h2⟩ := ih he
        exact ⟨List.mem_cons_of_mem _ h1, h2⟩
      · simp only [check_mutually_exclusive_sets, if_neg h]
        intro he
        obtain rfl : s = e := by injection he
        exact ⟨List.mem_cons_self _ _, h⟩
  · intro a b
    cases a <;> cases b <;>
      simp [check_mutually_exclusive_sets, truthy, List.countP, List.countP.go]

/-- C5 witness: for the set `{"use_mlp_model", "use_batch_norm_on_cnns"}`
over boolean fields, `(False, True)` passes, and the theorem's other parts
instantiated at `(True, True)`, which is rejected with the set named. -/
theorem C5_mutually_exclusive_sets_witness :
    (check_mutually_exclusive_sets [["a", "b"]]
      (fun k => if k = "a" then .vbool false else .vbool true) = none) ∧
    (["a", "b"] ∈ [["a", "b"]] ∧
      (["a", "b"].countP (fun k => truthy
        ((fun k => if k = "a" then Val.vbool true else Val.vbool true) k))) ≠ 1) := by
  constructor
  · exact (C5_mutually_exclusive_sets.2.2 false true).mpr (by decide)
  · exact C5_mutually_exclusive_sets.2.1 [["a", "b"]]
      (fun k => if k = "a" then .vbool true else .vbool true) ["a", "b"] rfl

/-- Python exception classes relevant to the argparse conversion pipeline:
`argparse.ArgumentError`, `argparse.ArgumentTypeError`, `TypeError`,
`ValueError`, and a representative of any other exception class. -/
inductive PyExc where
  | argumentError
  | argumentTypeError
  | typeError
  | valueError
  | otherExc
  deriving DecidableEq, Repr

/-- Model of stdlib `argparse.ArgumentParser._get_value`: apply the
action's declared type conversion to the argument string;
`ArgumentTypeError`, `TypeError` and `ValueError` raised by the conversion
are re-raised as `ArgumentError`; other exceptions propagate unchanged. -/
def argparse_get_value (conv : String → Except PyExc Val) (s : String) : Except PyExc Val :=
  match conv s with
  | .ok v => .ok v
  | .error .argumentTypeError => .error .argumentError
  | .error .typeError => .error .argumentError
  | .error .valueError => .error .argumentError
  | .error e => .error e

/-- Model of the `_get_value` override in `utils.ArgumentParser` (utils.py
lines 146-151): `ArgumentError`, `TypeError` and `ValueError` arising from
the stdlib conversion are caught and the original argument string is
returned unchanged; any other exception propagates. -/
def expedantic_get_value (conv : String → Except PyExc Val) (s : String) : Except PyExc Val :=
  match argparse_get_value conv s with
  | .ok v => .ok v
  | .error .argumentError => .ok (.vstr s)
  | .error .typeError => .ok (.vstr s)
  | .error .valueError => .ok (.vstr s)
  | .error e => .error e

/-- Model of stdlib `argparse.ArgumentParser._check_value`: raise
`ArgumentError` when the action declares a choice set that does not contain
the parsed value. -/
def argparse_check_value (choices : Option (List Val)) (v : Val) : Except PyExc Unit :=
  match choices with
  | none => .ok ()
  | some cs => if cs.contains v then .ok () else .error .argumentError

/-- Model of the `_check_value` override in `utils.ArgumentParser`
(utils.py lines 153-157): the bare `except:` swallows every exception the
stdlib check raises (and the stdlib check returns `None` on success), so
the override always succeeds, whatever the choices and value. -/
def expedantic_check_value (choices : Option (List Val)) (v : Val) : Except PyExc Unit :=
  match argparse_check_value choices v with
  | _ => .ok ()

/-- Decimal digit accumulator for the model of Python `int`. -/
def digitsToNat (acc : Nat) : List Char → Option Nat
  | [] => some acc
  | c :: cs => if c.isDigit then digitsToNat (acc * 10 + (c.toNat - 48)) cs else none

/-- Optionally signed decimal integer parse at the character level. -/
def pyIntOfChars : List Char → Option Int
  | [] => none
  | '-' :: cs => if cs.isEmpty then none else (digitsToNat 0 cs).map (fun n => -(n : Int))
  | cs => (digitsToNat 0 cs).map (fun n => (n : Int))

/-- Model of applying Python `int` to a command-line token: an optionally
signed decimal integer parses, anything else raises `ValueError` (the
tokens considered here carry no surrounding whitespace or other bases). -/
def pyIntConv (s : String) : Except PyExc Val :=
  match pyIntOfChars s.data with
  | some n => .ok (.vint n)
  | none => .error .valueError

/-- The conversion used wherever the synthesizer passes `type=str`
(`Any`, union and unknown-flag arguments): Python `str` on a string is the
identity and never raises. -/
def pyStrConv (s : String) : Except PyExc Val := .ok (.vstr s)

/-- C10 — Tolerant CLI-layer coercion: (i) whenever the declared type's
conversion raises any of the exception classes the stdlib conversion
machinery surfaces (`ArgumentError`, `ArgumentTypeError`, `TypeError`,
`ValueError` — stdlib argparse folds the latter three into
`ArgumentError`), the overridden parser keeps the original raw string as
the value instead of rejecting the argument; (ii) the overridden choice
check accepts every value; (iii) in particular a value outside a `Literal`
field's declared choice set, which stdlib argparse would reject with
`ArgumentError`, is accepted.  Rejection of such values is left to schema
validation. -/
theorem C10_tolerant_coercion :
    (∀ (conv : String → Except PyExc Val) (s : String) (e : PyExc),
      conv s = .error e →
      e ∈ [PyExc.argumentError, .argumentTypeError, .typeError, .valueError] →
      expedantic_get_value conv s = .ok (.vstr s)) ∧
    (∀ (choices : Option (List Val)) (v : Val),
      expedantic_check_value choices v = .ok ()) ∧
    (∀ (cs : List Val) (v : Val), cs.contains v = false →
      argparse_check_value (some cs) v = .error .argumentError ∧
      expedantic_check_value (some cs) v = .ok ()) := by
  refine ⟨?_, ?_, ?_⟩
  · intro conv s e hc he
    fin_cases he <;> simp [expedantic_get_value, argparse_get_value, hc]
  · intro choices v
    simp [expedantic_check_value]
  · intro cs v h
    exact ⟨by simp [argparse_check_value, h], by simp [expedantic_check_value]⟩

/-- C10 witness: `int("abc")` raises `ValueError` and the overridden parser
keeps `"abc"`; the literal choice set `{"Gaussian", "Uniform"}` does not
contain `"Dirichlet"`, stdlib would reject it, the override accepts it. -/
theorem C10_tolerant_coercion_witness :
    expedantic_get_value pyIntConv "abc" = .ok (.vstr "abc") ∧
    expedantic_check_value (some [.vstr "Gaussian", .vstr "Uniform"]) (.vstr "X") = .ok () ∧
    (argparse_check_value (some [Val.vstr "Gaussian", .vstr "Uniform"]) (.vstr "Dirichlet")
        = .error .argumentError ∧
      expedantic_check_value (some [Val.vstr "Gaussian", .vstr "Uniform"]) (.vstr "Dirichlet")
        = .ok ()) := by
  refine ⟨?_, ?_, ?_⟩
  · exact C10_tolerant_coercion.1 pyIntConv "abc" .valueError rfl (by decide)
  · exact C10_tolerant_coercion.2.1 _ _
  · exact C10_tolerant_coercion.2.2 _ _ rfl

theorem splitCh_ne_nil (sep : Char) (l : List Char) : splitCh sep l ≠ [] := by
  cases l with
  | nil => simp [splitCh]
  | cons c cs =>
    simp only [splitCh]
    cases h2 : splitCh sep cs with
    | nil => simp
    | cons g gs => by_cases h : c = sep <;> simp [h]

theorem splitCh_sepFree (sep : Char) (g : List Char) (h : sep ∉ g) :
    splitCh sep g = [g] := by
  induction g with
  | nil => rfl
  | cons c cs ih =>
    have hc : ¬ c = sep := fun he => h (by simp [he])
    have hcs : sep ∉ cs := fun hm => h (List.mem_cons_of_mem _ hm)
    simp [splitCh, ih hcs, hc]

theorem splitCh_append (sep : Char) (g t : List Char) (h : sep ∉ g) :
    splitCh sep (g ++ sep :: t) = g :: splitCh sep t := by
  induction g with
  | nil =>
    simp only [List.nil_append, splitCh]
    cases h2 : splitCh sep t with
    | nil => exact absurd h2 (splitCh_ne_nil sep t)
    | cons g2 gs => simp
  | cons c cs ih =>
    have hc : ¬ c = sep := fun he => h (by simp [he])
    have hcs : sep ∉ cs := fun hm => h (List.mem_cons_of_mem _ hm)
    simp only [List.cons_append, splitCh, List.append_eq]
    rw [ih hcs]
    simp [hc]

theorem pySplit_sepFree (sep : Char) (s : String) (h : s.data.contains sep = false) :
    pySplit sep s = [s] := by
  have h2 : sep ∉ s.data := by simpa using h
  rw [pySplit, splitCh_sepFree sep s.data h2]
  rfl

theorem data_toString_char (c : Char) : (Char.toString c).data = [c] := rfl

theorem data_append_sep (sep : Char) (a b : String) :
    (a ++ sep.toString ++ b).data = a.data ++ sep :: b.data := by
  simp [String.data_append, data_toString_char]

theorem pySplit_append (sep : Char) (a b : String) (h : a.data.contains sep = false) :
    pySplit sep (a ++ sep.toString ++ b) = a :: pySplit sep b := by
  have h2 : sep ∉ a.data := by simpa using h
  rw [pySplit, data_append_sep, splitCh_append sep a.data b.data h2]
  rfl

theorem append_sep_ne_empty (sep : Char) (a b : String) :
    ((a ++ sep.toString ++ b) == "") = false := by
  rw [beq_eq_false_iff_ne]
  intro h
  have h2 := congrArg String.data h
  rw [data_append_sep] at h2
  simp at h2

theorem append_sep_left_cancel (sep : Char) (p a b : String)
    (h : p ++ sep.toString ++ a = p ++ sep.toString ++ b) : a = b := by
  have h2 := congrArg String.data h
  rw [data_append_sep, data_append_sep] at h2
  exact String.ext (by simpa using h2)

/-- Prefix a flat item's key with `p` and the separator. -/
def addPre (sep : Char) (p : String) (q : String × Val) : String × Val :=
  (p ++ sep.toString ++ q.1, q.2)

theorem pySet_map_addPre (sep : Char) (p : String) (d : List (String × Val))
    (k : String) (v : Val) :
    pySet (d.map (addPre sep p)) (p ++ sep.toString ++ k) v
      = (pySet d k v).map (addPre sep p) := by
  induction d with
  | nil => simp [pySet, addPre]
  | cons q rest ih =>
    obtain ⟨k2, v2⟩ := q
    by_cases h : k2 = k
    · simp [pySet, addPre, h]
    · have h2 : ¬ (p ++ sep.toString ++ k2 = p ++ sep.toString ++ k) :=
        fun he => h (append_sep_left_cancel sep p k2 k he)
      simp [pySet, addPre, h, h2, ih]

theorem pyDictOf_map_addPre (sep : Char) (p : String) (l : List (String × Val)) :
    pyDictOf (l.map (addPre sep p)) = (pyDictOf l).map (addPre sep p) := by
  suffices h : ∀ acc, (l.map (addPre sep p)).foldl (fun d q => pySet d q.1 q.2)
      (acc.map (addPre sep p))
      = (l.foldl (fun d q => pySet d q.1 q.2) acc).map (addPre sep p) by
    simpa [pyDictOf] using h []
  induction l with
  | nil => intro acc; simp
  | cons q rest ih =>
    intro acc
    obtain ⟨k2, v2⟩ := q
    simp only [List.map_cons, List.foldl_cons]
    rw [show (addPre sep p (k2, v2)).1 = p ++ sep.toString ++ k2 from rfl,
      show (addPre sep p (k2, v2)).2 = v2 from rfl, pySet_map_addPre]
    exact ih (pySet acc k2 v2)

theorem flattenItems_withPre (sep : Char) :
    ∀ (d : List (String × Val)) (p q : String),
      (p == "") = false → (q == "") = false →
      flattenItems sep (p ++ sep.toString ++ q) d
        = (flattenItems sep q d).map (addPre sep p)
  | [], _, _, _, _ => by simp [flattenItems]
  | (k, v) :: rest, p, q, hp, hq => by
    have hpq : ((p ++ sep.toString ++ q) == "") = false := append_sep_ne_empty sep p q
    have hqk : ((q ++ sep.toString ++ k) == "") = false := append_sep_ne_empty sep q k
    cases v
    case vdict m =>
      simp only [flattenItems, hpq, hq, Bool.false_eq_true, if_false, List.map_append]
      rw [flattenItems_withPre sep rest p q hp hq,
        show (p ++ sep.toString ++ q) ++ sep.toString ++ k
          = p ++ sep.toString ++ (q ++ sep.toString ++ k) by
            simp [String.append_assoc],
        flattenItems_withPre sep m p (q ++ sep.toString ++ k) hp hqk,
        pyDictOf_map_addPre]
    all_goals
      simp only [flattenItems, hpq, hq, Bool.false_eq_true, if_false, List.map_append]
      rw [flattenItems_withPre sep rest p q hp hq]
      simp [addPre, String.append_assoc]

theorem flattenItems_top (sep : Char) :
    ∀ (d : List (String × Val)) (k : String),
      (k == "") = false → goodPairs sep d = true →
      flattenItems sep k d = (flattenItems sep "" d).map (addPre sep k)
  | [], _, _, _ => by simp [flattenItems]
  | (k2, v) :: rest, k, hk, hg => by
    rw [goodPairs] at hg
    simp only [Bool.and_eq_true] at hg
    obtain ⟨⟨⟨⟨hk2ne, hsf⟩, hnd⟩, hdv⟩, hgrest⟩ := hg
    have hk2 : (k2 == "") = false := by
      cases h2 : (k2 == "") with
      | false => rfl
      | true => exact absurd h2 (by simpa using hk2ne)
    clear hdv
    cases v
    case vdict m =>
      simp only [flattenItems, hk, hk2, Bool.false_eq_true, if_false, List.map_append]
      rw [flattenItems_top sep rest k hk hgrest, flattenItems_withPre sep m k k2 hk hk2,
        pyDictOf_map_addPre]
      simp
    all_goals
      simp only [flattenItems, hk, hk2, Bool.false_eq_true, if_false, List.map_append]
      rw [flattenItems_top sep rest k hk hgrest]
      simp [addPre]

theorem goodPairs_cons (sep : Char) (k : String) (v : Val) (rest : List (String × Val)) :
    goodPairs sep ((k, v) :: rest) = true ↔
      ((k == "") = false ∧ k.data.contains sep = false ∧ (∀ q ∈ rest, q.1 ≠ k) ∧
        goodVal sep v = true ∧ goodPairs sep rest = true) := by
  rw [goodPairs]
  simp only [Bool.and_eq_true, Bool.not_eq_true', List.any_eq_false, beq_eq_false_iff_ne]
  constructor
  · rintro ⟨⟨⟨⟨h1, h2⟩, h3⟩, h4⟩, h5⟩
    refine ⟨by simpa using h1, h2, ?_, h4, h5⟩
    intro q hq
    simpa using h3 q hq
  · rintro ⟨h1, h2, h3, h4, h5⟩
    refine ⟨⟨⟨⟨by simpa using h1, h2⟩, ?_⟩, h4⟩, h5⟩
    intro q hq
    simpa using h3 q hq

theorem goodVal_dict (sep : Char) (m : List (String × Val))
    (h : goodVal sep (.vdict m) = true) : m ≠ [] ∧ goodPairs sep m = true := by
  rw [goodVal] at h
  simp only [Bool.and_eq_true, Bool.not_eq_true'] at h
  refine ⟨?_, h.2⟩
  intro he
  rw [he] at h
  simp at h

theorem flattenItems_cons_leaf (sep : Char) (p k : String) (v : Val)
    (rest : List (String × Val)) (hv : ∀ m, v ≠ Val.vdict m) :
    flattenItems sep p ((k, v) :: rest) =
      ((if (p == "") then k else p ++ sep.toString ++ k), v) :: flattenItems sep p rest := by
  cases v <;> first
    | exact absurd rfl (hv _)
    | simp [flattenItems]

theorem flattenItems_cons_dict (sep : Char) (p k : String) (m rest : List (String × Val)) :
    flattenItems sep p ((k, .vdict m) :: rest) =
      pyDictOf (flattenItems sep (if (p == "") then k else p ++ sep.toString ++ k) m)
        ++ flattenItems sep p rest := by
  simp [flattenItems]

theorem flattenItems_cons_leaf_top (sep : Char) (k : String) (v : Val)
    (rest : List (String × Val)) (hv : ∀ m, v ≠ Val.vdict m) :
    flattenItems sep "" ((k, v) :: rest) = (k, v) :: flattenItems sep "" rest := by
  rw [flattenItems_cons_leaf sep "" k v rest hv]
  simp

theorem flattenItems_cons_dict_top (sep : Char) (k : String) (m rest : List (String × Val)) :
    flattenItems sep "" ((k, .vdict m) :: rest) =
      pyDictOf (flattenItems sep k m) ++ flattenItems sep "" rest := by
  rw [flattenItems_cons_dict]
  simp

theorem mem_pySet (d : List (String × Val)) (k : String) (v : Val) (q : String × Val)
    (h : q ∈ pySet d k v) : q = (k, v) ∨ q ∈ d := by
  induction d with
  | nil => simpa [pySet] using h
  | cons p rest ih =>
    obtain ⟨k2, v2⟩ := p
    by_cases h2 : k2 = k
    · subst h2
      simp only [pySet, if_pos rfl] at h
      rcases List.mem_cons.mp h with h3 | h3
      · exact Or.inl (by simpa using h3)
      · exact Or.inr (List.mem_cons_of_mem _ h3)
    · simp only [pySet, if_neg h2] at h
      rcases List.mem_cons.mp h with h3 | h3
      · exact Or.inr (by simp [h3])
      · rcases ih h3 with h4 | h4
        · exact Or.inl h4
        · exact Or.inr (List.mem_cons_of_mem _ h4)

theorem mem_foldl_pySet (l : List (String × Val)) :
    ∀ (acc : List (String × Val)) (q : String × Val),
      q ∈ l.foldl (fun d p => pySet d p.1 p.2) acc → q ∈ acc ∨ q ∈ l := by
  induction l with
  | nil => intro acc q h2; exact Or.inl h2
  | cons p rest ih =>
    intro acc q h2
    rcases ih (pySet acc p.1 p.2) q h2 with h3 | h3
    · rcases mem_pySet acc p.1 p.2 q h3 with h4 | h4
      · exact Or.inr (by simp [h4])
      · exact Or.inl h4
    · exact Or.inr (List.mem_cons_of_mem _ h3)

theorem mem_pyDictOf (l : List (String × Val)) (q : String × Val)
    (h : q ∈ pyDictOf l) : q ∈ l := by
  rcases mem_foldl_pySet l [] q h with h2 | h2
  · simp at h2
  · exact h2

theorem pyDictOf_eq_self (l : List (String × Val)) (h : (l.map Prod.fst).Nodup) :
    pyDictOf l = l := by
  suffices aux : ∀ (l2 : List (String × Val)) (acc : List (String × Val)),
      (∀ q ∈ l2, pyGet acc q.1 = none) → (l2.map Prod.fst).Nodup →
      l2.foldl (fun d p => pySet d p.1 p.2) acc = acc ++ l2 by
    simpa [pyDictOf] using aux l [] (by intro q hq; rfl) h
  intro l2
  induction l2 with
  | nil => intro acc _ _; simp
  | cons p rest ih =>
    intro acc hfresh hnodup
    obtain ⟨k, v⟩ := p
    rw [List.map_cons] at hnodup
    have hnodup2 := List.nodup_cons.mp hnodup
    simp only [List.foldl_cons]
    rw [pySet_fresh acc k v (hfresh (k, v) (List.mem_cons_self _ _))]
    rw [ih (acc ++ [(k, v)]) ?fresh hnodup2.2]
    · simp
    case fresh =>
      intro q hq
      rw [pyGet_append_none _ _ _ (hfresh q (List.mem_cons_of_mem _ hq))]
      have hqk : ¬ k = q.1 := by
        intro he
        have hmm : q.1 ∈ List.map Prod.fst rest := List.mem_map_of_mem Prod.fst hq
        exact hnodup2.1 (he ▸ hmm)
      simp [pyGet, hqk]

theorem pySet_ne_nil (d : List (String × Val)) (k : String) (v : Val) :
    pySet d k v ≠ [] := by
  cases d with
  | nil => simp [pySet]
  | cons p rest =>
    obtain ⟨k2, v2⟩ := p
    by_cases h : k2 = k <;> simp [pySet, h]

theorem pyDictOf_ne_nil (l : List (String × Val)) (h : l ≠ []) : pyDictOf l ≠ [] := by
  suffices aux : ∀ (l2 acc : List (String × Val)), acc ≠ [] →
      l2.foldl (fun d p => pySet d p.1 p.2) acc ≠ [] by
    cases l with
    | nil => exact absurd rfl h
    | cons p rest =>
      simpa [pyDictOf] using aux rest (pySet [] p.1 p.2) (pySet_ne_nil [] p.1 p.2)
  intro l2
  induction l2 with
  | nil => intro acc h2; simpa using h2
  | cons p rest ih =>
    intro acc _
    simpa using ih (pySet acc p.1 p.2) (pySet_ne_nil acc p.1 p.2)

theorem flattenItems_ne_nil (sep : Char) :
    ∀ (d : List (String × Val)) (p : String), goodPairs sep d = true → d ≠ [] →
      flattenItems sep p d ≠ []
  | [], _, _, h => absurd rfl h
  | (k, v) :: rest, p, hg, _ => by
    obtain ⟨h1, h2, h3, hdv, hgrest⟩ := (goodPairs_cons sep k v rest).mp hg
    by_cases hvd : ∃ m, v = Val.vdict m
    · obtain ⟨m, rfl⟩ := hvd
      obtain ⟨hmne, hgm⟩ := goodVal_dict sep m hdv
      rw [flattenItems_cons_dict]
      simp only [ne_eq, List.append_eq_nil, not_and]
      intro hc
      exact absurd hc (pyDictOf_ne_nil _ (flattenItems_ne_nil sep m _ hgm hmne))
    · push_neg at hvd
      rw [flattenItems_cons_leaf sep p k v rest hvd]
      simp

/-- The first separator-segment of a flat key. -/
def headSeg (sep : Char) (s : String) : String :=
  { data := (splitCh sep s.data).headD [] }

theorem headSeg_sepFree (sep : Char) (k : String) (h : k.data.contains sep = false) :
    headSeg sep k = k := by
  have h2 : sep ∉ k.data := by simpa using h
  simp only [headSeg]
  rw [splitCh_sepFree sep k.data h2]
  rfl

theorem headSeg_pre (sep : Char) (k b : String) (h : k.data.contains sep = false) :
    headSeg sep (k ++ sep.toString ++ b) = k := by
  have h2 : sep ∉ k.data := by simpa using h
  simp only [headSeg]
  rw [data_append_sep, splitCh_append sep k.data b.data h2]
  rfl

theorem flatten_key_headSeg (sep : Char) :
    ∀ (d : List (String × Val)) (q : String × Val),
      goodPairs sep d = true → q ∈ flattenItems sep "" d →
      ∃ w, (headSeg sep q.1, w) ∈ d
  | [], q, _, hq => by simp [flattenItems] at hq
  | (k, v) :: rest, q, hg, hq => by
    obtain ⟨hkne, hsf, hnd, hdv, hgrest⟩ := (goodPairs_cons sep k v rest).mp hg
    by_cases hvd : ∃ m, v = Val.vdict m
    · obtain ⟨m, rfl⟩ := hvd
      obtain ⟨hmne, hgm⟩ := goodVal_dict sep m hdv
      rw [flattenItems_cons_dict_top] at hq
      rcases List.mem_append.mp hq with hq1 | hq2
      · have hq3 : q ∈ flattenItems sep k m := mem_pyDictOf _ _ hq1
        rw [flattenItems_top sep m k hkne hgm] at hq3
        obtain ⟨q0, _, rfl⟩ := List.mem_map.mp hq3
        refine ⟨Val.vdict m, ?_⟩
        rw [show (addPre sep k q0).1 = k ++ sep.toString ++ q0.1 from rfl,
          headSeg_pre sep k q0.1 hsf]
        exact List.mem_cons_self _ _
      · obtain ⟨w, hw⟩ := flatten_key_headSeg sep rest q hgrest hq2
        exact ⟨w, List.mem_cons_of_mem _ hw⟩
    · push_neg at hvd
      rw [flattenItems_cons_leaf_top sep k v rest hvd] at hq
      rcases List.mem_cons.mp hq with hq1 | hq2
      · subst hq1
        refine ⟨v, ?_⟩
        rw [show ((k, v).1 : String) = k from rfl, headSeg_sepFree sep k hsf]
        exact List.mem_cons_self _ _
      · obtain ⟨w, hw⟩ := flatten_key_headSeg sep rest q hgrest hq2
        exact ⟨w, List.mem_cons_of_mem _ hw⟩

theorem flatten_tail_key (sep : Char) (rest : List (String × Val))
    (hgrest : goodPairs sep rest = true) (kk : String)
    (hk : kk ∈ (flattenItems sep "" rest).map Prod.fst) :
    ∃ w, (headSeg sep kk, w) ∈ rest := by
  obtain ⟨q, hq, rfl⟩ := List.mem_map.mp hk
  exact flatten_key_headSeg sep rest q hgrest hq

theorem flatten_keys_nodup (sep : Char) :
    ∀ (d : List (String × Val)), goodPairs sep d = true →
      ((flattenItems sep "" d).map Prod.fst).Nodup
  | [], _ => by simp [flattenItems]
  | (k, v) :: rest, hg => by
    obtain ⟨hkne, hsf, hnd, hdv, hgrest⟩ := (goodPairs_cons sep k v rest).mp hg
    have htail := flatten_keys_nodup sep rest hgrest
    have hknotin : ∀ w, (k, w) ∉ rest := by
      intro w hw
      exact hnd (k, w) hw rfl
    by_cases hvd : ∃ m, v = Val.vdict m
    · obtain ⟨m, rfl⟩ := hvd
      obtain ⟨hmne, hgm⟩ := goodVal_dict sep m hdv
      have hinner := flatten_keys_nodup sep m hgm
      rw [flattenItems_cons_dict_top, List.map_append, List.nodup_append]
      have hpd : pyDictOf (flattenItems sep k m)
          = (flattenItems sep "" m).map (addPre sep k) := by
        rw [flattenItems_top sep m k hkne hgm, pyDictOf_map_addPre,
          pyDictOf_eq_self _ hinner]
      refine ⟨?_, htail, ?_⟩
      · rw [hpd]
        have hcomp : ((flattenItems sep "" m).map (addPre sep k)).map Prod.fst
            = ((flattenItems sep "" m).map Prod.fst).map
                (fun a => k ++ sep.toString ++ a) := by
          simp [addPre, Function.comp]
        rw [hcomp]
        exact List.Nodup.map
          (fun a b h2 => append_sep_left_cancel sep k a b h2) hinner
      · intro kk hk1 hk2
        rw [hpd] at hk1
        obtain ⟨q0, hq0, rfl⟩ := List.mem_map.mp hk1
        obtain ⟨q1, hq1, rfl⟩ := List.mem_map.mp hq0
        obtain ⟨w, hw⟩ := flatten_tail_key sep rest hgrest _ hk2
        rw [show (addPre sep k q1).1 = k ++ sep.toString ++ q1.1 from rfl,
          headSeg_pre sep k q1.1 hsf] at hw
        exact hknotin w hw
    · push_neg at hvd
      rw [flattenItems_cons_leaf_top sep k v rest hvd, List.map_cons]
      refine List.nodup_cons.mpr ⟨?_, htail⟩
      intro hk2
      obtain ⟨w, hw⟩ := flatten_tail_key sep rest hgrest _ hk2
      rw [show ((k, v).1 : String) = k from rfl, headSeg_sepFree sep k hsf] at hw
      exact hknotin w hw

theorem flatten_vals_not_sentinel (sep : Char) :
    ∀ (d : List (String × Val)) (q : String × Val),
      goodPairs sep d = true → q ∈ flattenItems sep "" d → q.2 ≠ Val.notProvided
  | [], q, _, hq => by simp [flattenItems] at hq
  | (k, v) :: rest, q, hg, hq => by
    obtain ⟨hkne, hsf, hnd, hdv, hgrest⟩ := (goodPairs_cons sep k v rest).mp hg
    by_cases hvd : ∃ m, v = Val.vdict m
    · obtain ⟨m, rfl⟩ := hvd
      obtain ⟨hmne, hgm⟩ := goodVal_dict sep m hdv
      rw [flattenItems_cons_dict_top] at hq
      rcases List.mem_append.mp hq with hq1 | hq2
      · have hq3 : q ∈ flattenItems sep k m := mem_pyDictOf _ _ hq1
        rw [flattenItems_top sep m k hkne hgm] at hq3
        obtain ⟨q0, hq0, rfl⟩ := List.mem_map.mp hq3
        exact flatten_vals_not_sentinel sep m q0 hgm hq0
      · exact flatten_vals_not_sentinel sep rest q hgrest hq2
    · push_neg at hvd
      rw [flattenItems_cons_leaf_top sep k v rest hvd] at hq
      rcases List.mem_cons.mp hq with hq1 | hq2
      · subst hq1
        intro hs
        rw [show ((k, v).2 : Val) = v from rfl] at hs
        subst hs
        rw [goodVal] at hdv
        simp at hdv
      · exact flatten_vals_not_sentinel sep rest q hgrest hq2

theorem pySet_get_self (d : List (String × Val)) (k : String) (w : Val)
    (h : pyGet d k = some w) : pySet d k w = d := by
  induction d with
  | nil => simp [pyGet] at h
  | cons p rest ih =>
    obtain ⟨k2, v2⟩ := p
    by_cases h2 : k2 = k
    · simp only [pyGet, if_pos h2] at h
      obtain rfl : v2 = w := by injection h
      simp [pySet, h2]
    · simp only [pyGet, if_neg h2] at h
      simp [pySet, h2, ih h]

/-- The rehydration fold from an arbitrary accumulator (matching the loop
state of `ConfigBase.parse_args` mid-iteration). -/
def rehydrateFrom (sep : Char) (acc : Option (List (String × Val)))
    (flat : List (String × Val)) : Option (List (String × Val)) :=
  flat.foldl
    (fun a p =>
      match a with
      | none => none
      | some d => insertFlat sep d p.1 p.2)
    acc

theorem rehydrate_eq_rehydrateFrom (sep : Char) (flat : List (String × Val)) :
    rehydrate sep flat = rehydrateFrom sep (some []) flat := rfl

theorem rehydrateFrom_none (sep : Char) (flat : List (String × Val)) :
    rehydrateFrom sep none flat = none := by
  induction flat with
  | nil => rfl
  | cons p rest ih => simpa [rehydrateFrom] using ih

theorem rehydrateFrom_append (sep : Char) (acc : Option (List (String × Val)))
    (l1 l2 : List (String × Val)) :
    rehydrateFrom sep acc (l1 ++ l2) = rehydrateFrom sep (rehydrateFrom sep acc l1) l2 := by
  simp [rehydrateFrom, List.foldl_append]

theorem pySplit_ne_nil (sep : Char) (b : String) : pySplit sep b ≠ [] := by
  intro h
  rw [pySplit] at h
  exact splitCh_ne_nil sep b.data (List.map_eq_nil_iff.mp h)

theorem insertFlat_of_ne (sep : Char) (t : List (String × Val)) (k : String) (v : Val)
    (hv : v ≠ Val.notProvided) :
    insertFlat sep t k v =
      match pySplit sep k with
      | [] => none
      | s :: ss => insertSeg t (initLast s ss).1 (initLast s ss).2 v := by
  cases v <;> first
    | exact absurd rfl hv
    | simp [insertFlat]

theorem insertSeg_create (t : List (String × Val)) (k : String) (ks : List String)
    (last : String) (v : Val) (h : pyGet t k = none) :
    insertSeg t (k :: ks) last v = insertSeg (t ++ [(k, Val.vdict [])]) (k :: ks) last v := by
  have h2 : pyGet (t ++ [(k, Val.vdict [])]) k = some (.vdict []) := by
    rw [pyGet_append_none _ _ _ h]
    simp [pyGet]
  simp only [insertSeg, h, h2]
  cases insertSeg [] ks last v with
  | none => rfl
  | some sub => simp [pySet_fresh t k _ h, pySet_append_last t k _ _ h]

theorem insertFlat_nested (sep : Char) (t u : List (String × Val)) (k b : String) (v : Val)
    (hk : pyGet t k = some (.vdict u)) (hsf : k.data.contains sep = false) :
    insertFlat sep t (k ++ sep.toString ++ b) v
      = (insertFlat sep u b v).map (fun u2 => pySet t k (.vdict u2)) := by
  by_cases hv : v = Val.notProvided
  · subst hv
    show some t = some (pySet t k (.vdict u))
    rw [pySet_get_self t k _ hk]
  · rw [insertFlat_of_ne sep t _ v hv, insertFlat_of_ne sep u b v hv,
      pySplit_append sep k b hsf]
    cases hsp : pySplit sep b with
    | nil => exact absurd hsp (pySplit_ne_nil sep b)
    | cons s ss =>
      show insertSeg t (initLast k (s :: ss)).1 (initLast k (s :: ss)).2 v
        = (insertSeg u (initLast s ss).1 (initLast s ss).2 v).map
            (fun u2 => pySet t k (.vdict u2))
      rw [show initLast k (s :: ss) = (k :: (initLast s ss).1, (initLast s ss).2) from rfl]
      simp only [insertSeg, hk]
      cases insertSeg u (initLast s ss).1 (initLast s ss).2 v with
      | none => rfl
      | some sub2 => rfl

theorem insertFlat_create (sep : Char) (t : List (String × Val)) (k b : String) (v : Val)
    (hfk : pyGet t k = none) (hv : v ≠ Val.notProvided)
    (hsf : k.data.contains sep = false) :
    insertFlat sep t (k ++ sep.toString ++ b) v
      = insertFlat sep (t ++ [(k, Val.vdict [])]) (k ++ sep.toString ++ b) v := by
  rw [insertFlat_of_ne sep t _ v hv, insertFlat_of_ne sep (t ++ [(k, Val.vdict [])]) _ v hv,
    pySplit_append sep k b hsf]
  cases hsp : pySplit sep b with
  | nil => exact absurd hsp (pySplit_ne_nil sep b)
  | cons s ss =>
    show insertSeg t (initLast k (s :: ss)).1 (initLast k (s :: ss)).2 v
      = insertSeg (t ++ [(k, Val.vdict [])]) (initLast k (s :: ss)).1
          (initLast k (s :: ss)).2 v
    rw [show initLast k (s :: ss) = (k :: (initLast s ss).1, (initLast s ss).2) from rfl]
    exact insertSeg_create t k _ _ v hfk

theorem rehydrateFrom_nested (sep : Char) (k : String)
    (hsf : k.data.contains sep = false) :
    ∀ (batch : List (String × Val)) (t u : List (String × Val)),
      pyGet t k = some (.vdict u) →
      rehydrateFrom sep (some t) (batch.map (addPre sep k))
        = (rehydrateFrom sep (some u) batch).map (fun u2 => pySet t k (.vdict u2)) := by
  intro batch
  induction batch with
  | nil =>
    intro t u hk
    show some t = some (pySet t k (.vdict u))
    rw [pySet_get_self t k _ hk]
  | cons q rest ih =>
    intro t u hk
    obtain ⟨b, v⟩ := q
    show rehydrateFrom sep (insertFlat sep t (addPre sep k (b, v)).1 (addPre sep k (b, v)).2)
        (rest.map (addPre sep k))
      = (rehydrateFrom sep (insertFlat sep u b v) rest).map (fun u2 => pySet t k (.vdict u2))
    rw [show (addPre sep k (b, v)).1 = k ++ sep.toString ++ b from rfl,
      show (addPre sep k (b, v)).2 = v from rfl,
      insertFlat_nested sep t u k b v hk hsf]
    cases hi : insertFlat sep u b v with
    | none =>
      show rehydrateFrom sep none _ = Option.map _ (rehydrateFrom sep none rest)
      rw [rehydrateFrom_none, rehydrateFrom_none]
      rfl
    | some u2 =>
      show rehydrateFrom sep (some (pySet t k (.vdict u2))) (rest.map (addPre sep k))
        = Option.map (fun u3 => pySet t k (.vdict u3)) (rehydrateFrom sep (some u2) rest)
      rw [ih (pySet t k (.vdict u2)) u2 (pyGet_pySet_self t k (.vdict u2))]
      cases rehydrateFrom sep (some u2) rest with
      | none => rfl
      | some u3 =>
        show some (pySet (pySet t k (Val.vdict u2)) k (Val.vdict u3))
          = some (pySet t k (Val.vdict u3))
        rw [pySet_pySet_same]

theorem rehydrate_flatten_main (sep : Char) :
    ∀ (d t : List (String × Val)), goodPairs sep d = true →
      (∀ p ∈ d, pyGet t p.1 = none) →
      rehydrateFrom sep (some t) (flattenItems sep "" d) = some (t ++ d)
  | [], t, _, _ => by simp [flattenItems, rehydrateFrom]
  | (k, v) :: rest, t, hg, hfresh => by
    obtain ⟨hkne, hsf, hnd, hdv, hgrest⟩ := (goodPairs_cons sep k v rest).mp hg
    have hfk : pyGet t k = none := hfresh (k, v) (List.mem_cons_self _ _)
    have hknotin : ∀ p ∈ rest, p.1 ≠ k := hnd
    have hfresh2 : ∀ (w : Val) (p : String × Val), p ∈ rest →
        pyGet (t ++ [(k, w)]) p.1 = none := by
      intro w p hp
      rw [pyGet_append_none _ _ _ (hfresh p (List.mem_cons_of_mem _ hp))]
      have hne : ¬ k = p.1 := fun h => hknotin p hp h.symm
      simp [pyGet, hne]
    by_cases hvd : ∃ m, v = Val.vdict m
    · obtain ⟨m, rfl⟩ := hvd
      obtain ⟨hmne, hgm⟩ := goodVal_dict sep m hdv
      have hpd : pyDictOf (flattenItems sep k m)
          = (flattenItems sep "" m).map (addPre sep k) := by
        rw [flattenItems_top sep m k hkne hgm, pyDictOf_map_addPre,
          pyDictOf_eq_self _ (flatten_keys_nodup sep m hgm)]
      rw [flattenItems_cons_dict_top, hpd, rehydrateFrom_append]
      obtain ⟨q0, X0, hX⟩ : ∃ q0 X0, flattenItems sep "" m = q0 :: X0 := by
        cases hX2 : flattenItems sep "" m with
        | nil => exact absurd hX2 (flattenItems_ne_nil sep m "" hgm hmne)
        | cons q0 X0 => exact ⟨q0, X0, rfl⟩
      have hq0s : q0.2 ≠ Val.notProvided :=
        flatten_vals_not_sentinel sep m q0 hgm (hX ▸ List.mem_cons_self _ _)
      have hstep : rehydrateFrom sep (some t) ((q0 :: X0).map (addPre sep k))
          = rehydrateFrom sep (some (t ++ [(k, Val.vdict [])]))
              ((q0 :: X0).map (addPre sep k)) := by
        show rehydrateFrom sep
            (insertFlat sep t (addPre sep k q0).1 (addPre sep k q0).2) (X0.map (addPre sep k))
          = rehydrateFrom sep
              (insertFlat sep (t ++ [(k, Val.vdict [])]) (addPre sep k q0).1
                (addPre sep k q0).2) (X0.map (addPre sep k))
        rw [show (addPre sep k q0).1 = k ++ sep.toString ++ q0.1 from rfl,
          show (addPre sep k q0).2 = q0.2 from rfl,
          insertFlat_create sep t k q0.1 q0.2 hfk hq0s hsf]
      rw [hX, hstep, rehydrateFrom_nested sep k hsf (q0 :: X0) (t ++ [(k, Val.vdict [])]) []
        (by rw [pyGet_append_none _ _ _ hfk]; simp [pyGet]), ← hX,
        rehydrate_flatten_main sep m [] hgm (by intro p hp; rfl)]
      show rehydrateFrom sep (some (pySet (t ++ [(k, Val.vdict [])]) k (Val.vdict ([] ++ m))))
          (flattenItems sep "" rest) = some (t ++ (k, Val.vdict m) :: rest)
      rw [List.nil_append, pySet_append_last t k _ _ hfk,
        rehydrate_flatten_main sep rest (t ++ [(k, Val.vdict m)]) hgrest
          (fun p hp => hfresh2 (Val.vdict m) p hp)]
      simp
    · push_neg at hvd
      rw [flattenItems_cons_leaf_top sep k v rest hvd]
      have hvs : v ≠ Val.notProvided := by
        intro he
        subst he
        rw [goodVal] at hdv
        simp at hdv
      show rehydrateFrom sep (insertFlat sep t k v) (flattenItems sep "" rest)
        = some (t ++ (k, v) :: rest)
      rw [insertFlat_of_ne sep t k v hvs, pySplit_sepFree sep k hsf]
      show rehydrateFrom sep (insertSeg t (initLast k []).1 (initLast k []).2 v)
        (flattenItems sep "" rest) = some (t ++ (k, v) :: rest)
      rw [show initLast k [] = ([], k) from rfl]
      show rehydrateFrom sep (some (pySet t k v)) (flattenItems sep "" rest)
        = some (t ++ (k, v) :: rest)
      rw [pySet_fresh t k v hfk,
        rehydrate_flatten_main sep rest (t ++ [(k, v)]) hgrest
          (fun p hp => hfresh2 v p hp)]
      simp

/-- C4 counterexample: two mappings satisfying the claim's precondition (no
flattened key-path collides with a prefix of another) whose flatten-then-
rehydrate round trip is not the original: `{"a.b": 1}` (a key containing
the separator) rehydrates to the nested `{"a": {"b": 1}}`, and `{"a": {}}`
(an empty nested mapping) flattens to nothing and rehydrates to `{}`. -/
theorem C4_counterexample :
    (rehydrate '.' (flatten_dict '.' "" [("a.b", .vint 1)])
        = some [("a", .vdict [("b", .vint 1)])] ∧
      rehydrate '.' (flatten_dict '.' "" [("a.b", .vint 1)])
        ≠ some [("a.b", Val.vint 1)]) ∧
    (rehydrate '.' (flatten_dict '.' "" [("a", .vdict [])]) = some [] ∧
      rehydrate '.' (flatten_dict '.' "" [("a", .vdict [])])
        ≠ some [("a", Val.vdict [])]) := by
  have h1 : flatten_dict '.' "" [("a.b", Val.vint 1)] = [("a.b", Val.vint 1)] := by
    simp [flatten_dict, flattenItems, pyDictOf, pySet]
  have h2 : flatten_dict '.' "" [("a", Val.vdict [])] = [] := by
    simp [flatten_dict, flattenItems, pyDictOf, pySet]
  rw [h1, h2]
  refine ⟨⟨rfl, ?_⟩, rfl, ?_⟩ <;> simp [rehydrate, insertFlat, pySplit, splitCh, initLast,
    insertSeg, pyGet, pySet]

/-- C4 amended — Round trip: for every nested mapping in which, at every
level, keys are nonempty, contain no occurrence of the separator and are
unique, no value is the `NOT_PROVIDED` sentinel, and every nested mapping
value is nonempty (conditions under which no flattened key-path can collide
with a prefix of another), flattening with `flatten_dict` and then
rehydrating with `parse_args`'s un-flattening loop, using the same
separator, returns a mapping structurally equal to the original. -/
theorem C4_flatten_rehydrate_roundtrip (sep : Char) (d : List (String × Val))
    (hg : goodPairs sep d = true) :
    rehydrate sep (flatten_dict sep "" d) = some d := by
  rw [rehydrate_eq_rehydrateFrom, flatten_dict,
    pyDictOf_eq_self _ (flatten_keys_nodup sep d hg),
    rehydrate_flatten_main sep d [] hg (by intro p hp; rfl)]
  simp

/-- C4 witness: the round trip evaluated on
`{"a": {"x": 1, "y": {"z": 2}}, "b": 3}` with separator `"."`. -/
theorem C4_flatten_rehydrate_roundtrip_witness :
    rehydrate '.' (flatten_dict '.' ""
        [("a", .vdict [("x", .vint 1), ("y", .vdict [("z", .vint 2)])]), ("b", .vint 3)])
      = some [("a", .vdict [("x", .vint 1), ("y", .vdict [("z", .vint 2)])]), ("b", .vint 3)] :=
  C4_flatten_rehydrate_roundtrip '.'
    [("a", .vdict [("x", .vint 1), ("y", .vdict [("z", .vint 2)])]), ("b", .vint 3)]
    (by decide)

/-- C6 counterexample: with both `"a"` (leaf, inserted first) and `"a.b"`
(container path, inserted second) in the flat mapping, the rehydration loop
raises (`setdefault` returns the leaf `1` and the following item assignment
on it raises `TypeError`), modelled as `none` — the later-inserted key does
not win in this insertion order, contradicting the claimed
order-independent later-wins determinism. -/
theorem C6_counterexample :
    rehydrate '.' [("a", .vint 1), ("a.b", .vint 2)] = none ∧
    rehydrate '.' [("a", .vint 1), ("a.b", .vint 2)]
      ≠ some [("a", Val.vdict [("b", Val.vint 2)])] := by
  refine ⟨rfl, ?_⟩
  simp [rehydrate, insertFlat, pySplit, splitCh, initLast, insertSeg, pyGet, pySet]

/-- C6 amended — Rehydrator prefix collisions are order dependent: when the
container-path key `a.b` is inserted first and the leaf key `a` later, the
later-inserted leaf wins and wholly replaces the container; but when the
leaf `a` is inserted first and `a.b` later, the loop raises
(`TypeError`/`AttributeError` on the leaf) instead of resolving the
collision. -/
theorem C6_amended_rehydrator_collision (sep : Char) (a b : String) (u w : Val)
    (ha : a.data.contains sep = false) (hb : b.data.contains sep = false)
    (hu : u ≠ Val.notProvided) (hw : w ≠ Val.notProvided)
    (hud : ∀ m, u ≠ Val.vdict m) :
    rehydrate sep [(a ++ sep.toString ++ b, w), (a, u)] = some [(a, u)] ∧
    rehydrate sep [(a, u), (a ++ sep.toString ++ b, w)] = none := by
  have hsplita : pySplit sep a = [a] := pySplit_sepFree sep a ha
  have hsplitab : pySplit sep (a ++ sep.toString ++ b) = [a, b] := by
    rw [pySplit_append sep a b ha, pySplit_sepFree sep b hb]
  have hw1 : insertFlat sep [] (a ++ sep.toString ++ b) w = some [(a, .vdict [(b, w)])] := by
    rw [insertFlat_of_ne sep [] _ w hw, hsplitab]
    show insertSeg [] (initLast a [b]).1 (initLast a [b]).2 w = _
    rw [show initLast a [b] = ([a], b) from rfl]
    show insertSeg [] [a] b w = _
    simp [insertSeg, pyGet, pySet]
  have hu1 : insertFlat sep [(a, Val.vdict [(b, w)])] a u = some [(a, u)] := by
    rw [insertFlat_of_ne sep _ a u hu, hsplita]
    show insertSeg [(a, Val.vdict [(b, w)])] (initLast a []).1 (initLast a []).2 u = _
    rw [show initLast a [] = (([] : List String), a) from rfl]
    show some (pySet [(a, Val.vdict [(b, w)])] a u) = _
    simp [pySet]
  have hu2 : insertFlat sep [] a u = some [(a, u)] := by
    rw [insertFlat_of_ne sep [] a u hu, hsplita]
    show insertSeg [] (initLast a []).1 (initLast a []).2 u = _
    rw [show initLast a [] = (([] : List String), a) from rfl]
    show some (pySet [] a u) = _
    simp [pySet]
  have hw2 : insertFlat sep [(a, u)] (a ++ sep.toString ++ b) w = none := by
    rw [insertFlat_of_ne sep _ _ w hw, hsplitab]
    show insertSeg [(a, u)] (initLast a [b]).1 (initLast a [b]).2 w = none
    rw [show initLast a [b] = ([a], b) from rfl]
    show insertSeg [(a, u)] [a] b w = none
    have hg : pyGet [(a, u)] a = some u := by simp [pyGet]
    cases u
    case vdict m => exact absurd rfl (hud m)
    all_goals simp [insertSeg, hg]
  constructor
  · show rehydrateFrom sep (insertFlat sep [] (a ++ sep.toString ++ b) w) [(a, u)]
      = some [(a, u)]
    rw [hw1]
    show insertFlat sep [(a, Val.vdict [(b, w)])] a u = some [(a, u)]
    exact hu1
  · show rehydrateFrom sep (insertFlat sep [] a u) [(a ++ sep.toString ++ b, w)] = none
    rw [hu2]
    show insertFlat sep [(a, u)] (a ++ sep.toString ++ b) w = none
    exact hw2

/-- C6 amended witness: the two insertion orders evaluated at keys `"a"`,
`"a.b"` with leaf `1` and nested value `2`. -/
theorem C6_amended_rehydrator_collision_witness :
    rehydrate '.' [("a.b", .vint 2), ("a", .vint 1)] = some [("a", .vint 1)] ∧
    rehydrate '.' [("a", .vint 1), ("a.b", .vint 2)] = none :=
  C6_amended_rehydrator_collision '.' "a" "b" (.vint 1) (.vint 2)
    (by decide) (by decide) (by simp) (by simp) (by simp)

theorem sentFree_pyGet (d : List (String × Val)) (k : String) (w : Val)
    (hd : sentFreePairs d = true) (h : pyGet d k = some w) : sentFreeVal w = true := by
  induction d with
  | nil => simp [pyGet] at h
  | cons p rest ih =>
    obtain ⟨k2, v2⟩ := p
    rw [sentFreePairs] at hd
    simp only [Bool.and_eq_true] at hd
    by_cases h2 : k2 = k
    · simp only [pyGet, if_pos h2] at h
      obtain rfl : v2 = w := by injection h
      exact hd.1
    · simp only [pyGet, if_neg h2] at h
      exact ih hd.2 h

theorem sentFree_pySet (d : List (String × Val)) (k : String) (v : Val)
    (hd : sentFreePairs d = true) (hv : sentFreeVal v = true) :
    sentFreePairs (pySet d k v) = true := by
  induction d with
  | nil => simp [pySet, sentFreePairs, hv]
  | cons p rest ih =>
    obtain ⟨k2, v2⟩ := p
    rw [sentFreePairs] at hd
    simp only [Bool.and_eq_true] at hd
    by_cases h2 : k2 = k
    · simp only [pySet, if_pos h2]
      rw [sentFreePairs]
      simp [hv, hd.2]
    · simp only [pySet, if_neg h2]
      rw [sentFreePairs]
      simp [hd.1, ih hd.2]

theorem sentFree_insertSeg (ks : List String) :
    ∀ (d : List (String × Val)) (last : String) (v : Val) (d2 : List (String × Val)),
      sentFreePairs d = true → sentFreeVal v = true →
      insertSeg d ks last v = some d2 → sentFreePairs d2 = true := by
  induction ks with
  | nil =>
    intro d last v d2 hd hv h
    obtain rfl : pySet d last v = d2 := by injection h
    exact sentFree_pySet d last v hd hv
  | cons k ks ih =>
    intro d last v d2 hd hv h
    simp only [insertSeg] at h
    cases hg : pyGet d k with
    | none =>
      rw [hg] at h
      cases hi : insertSeg [] ks last v with
      | none => rw [hi] at h; simp at h
      | some sub =>
        rw [hi] at h
        obtain rfl : pySet d k (.vdict sub) = d2 := by injection h
        have hsub : sentFreePairs sub = true := ih [] last v sub rfl hv hi
        exact sentFree_pySet d k _ hd (by rw [sentFreeVal]; exact hsub)
    | some w =>
      rw [hg] at h
      cases w
      case vdict sub =>
        dsimp only at h
        cases hi : insertSeg sub ks last v with
        | none => rw [hi] at h; simp at h
        | some sub2 =>
          rw [hi] at h
          obtain rfl : pySet d k (.vdict sub2) = d2 := by injection h
          have hsubf : sentFreePairs sub = true := by
            have := sentFree_pyGet d k _ hd hg
            rwa [sentFreeVal] at this
          have hsub2 : sentFreePairs sub2 = true := ih sub last v sub2 hsubf hv hi
          exact sentFree_pySet d k _ hd (by rw [sentFreeVal]; exact hsub2)
      all_goals simp at h

theorem sentFree_rehydrateFrom (sep : Char) (flat : List (String × Val)) :
    ∀ (d d2 : List (String × Val)), sentFreePairs d = true →
      (∀ p ∈ flat, p.2 = Val.notProvided ∨ sentFreeVal p.2 = true) →
      rehydrateFrom sep (some d) flat = some d2 → sentFreePairs d2 = true := by
  induction flat with
  | nil =>
    intro d d2 hd _ h
    obtain rfl : d = d2 := by injection h
    exact hd
  | cons p rest ih =>
    intro d d2 hd hvals h
    obtain ⟨k, v⟩ := p
    rcases hvals (k, v) (List.mem_cons_self _ _) with hs | hs
    · rw [show (((k, v) : String × Val)).2 = v from rfl] at hs
      subst hs
      have hstep : insertFlat sep d k Val.notProvided = some d := rfl
      rw [show rehydrateFrom sep (some d) ((k, Val.notProvided) :: rest)
          = rehydrateFrom sep (insertFlat sep d k Val.notProvided) rest from rfl,
        hstep] at h
      exact ih d d2 hd (fun q hq => hvals q (List.mem_cons_of_mem _ hq)) h
    · rw [show rehydrateFrom sep (some d) ((k, v) :: rest)
          = rehydrateFrom sep (insertFlat sep d k v) rest from rfl] at h
      cases hstep : insertFlat sep d k v with
      | none => rw [hstep, rehydrateFrom_none] at h; simp at h
      | some d3 =>
        rw [hstep] at h
        have hvne : v ≠ Val.notProvided := by
          intro he
          rw [he, sentFreeVal] at hs
          simp at hs
        rw [insertFlat_of_ne sep d k v hvne] at hstep
        have hd3 : sentFreePairs d3 = true := by
          cases hsp : pySplit sep k with
          | nil => exact absurd hsp (pySplit_ne_nil sep k)
          | cons s ss =>
            rw [hsp] at hstep
            exact sentFree_insertSeg (initLast s ss).1 d (initLast s ss).2 v d3 hd
              (by rw [show (((k, v) : String × Val)).2 = v from rfl] at hs; exact hs) hstep
        exact ih d3 d2 hd3 (fun q hq => hvals q (List.mem_cons_of_mem _ hq)) h

theorem rehydrateFrom_filter_sentinel (sep : Char) (flat : List (String × Val)) :
    ∀ acc : Option (List (String × Val)),
      rehydrateFrom sep acc flat
        = rehydrateFrom sep acc (flat.filter (fun p =>
            match p.2 with | Val.notProvided => false | _ => true)) := by
  induction flat with
  | nil => intro acc; rfl
  | cons p rest ih =>
    intro acc
    obtain ⟨k, v⟩ := p
    cases v
    case notProvided =>
      have hstep : ∀ acc2 : Option (List (String × Val)),
          (match acc2 with
            | none => none
            | some d => insertFlat sep d k Val.notProvided) = acc2 := by
        intro acc2
        cases acc2 with
        | none => rfl
        | some d => rfl
      show rehydrateFrom sep (match acc with
          | none => none
          | some d => insertFlat sep d k Val.notProvided) rest = _
      rw [hstep acc, ih acc]
      rfl
    all_goals
      show rehydrateFrom sep _ rest = rehydrateFrom sep _ _
      rw [ih]
      rfl

/-- C8 — The `NOT_PROVIDED` sentinel never leaks past the rehydration loop:
(i) sentinel-valued parsed entries are skipped, so rehydration of the
parsed dict equals rehydration of the dict with those entries filtered out
— omitted flags contribute nothing to the CLI overlay and therefore cannot
clobber YAML-sourced or schema defaults in the subsequent merge; (ii) when
every non-sentinel parsed value is sentinel-free (as every argparse-
produced value is), the rehydrated mapping contains no occurrence of the
sentinel, so none can reach validation.  (The sentinel singleton itself is
created once at module import, config_base.py line 36, not once per
invocation; object identity is not distinguishable in this embedding.) -/
theorem C8_sentinel_never_leaks :
    (∀ (sep : Char) (flat : List (String × Val)),
      rehydrate sep flat = rehydrate sep (flat.filter (fun p =>
        match p.2 with | Val.notProvided => false | _ => true))) ∧
    (∀ (sep : Char) (flat d2 : List (String × Val)),
      (∀ p ∈ flat, p.2 = Val.notProvided ∨ sentFreeVal p.2 = true) →
      rehydrate sep flat = some d2 → sentFreePairs d2 = true) := by
  constructor
  · intro sep flat
    rw [rehydrate_eq_rehydrateFrom, rehydrate_eq_rehydrateFrom]
    exact rehydrateFrom_filter_sentinel sep flat (some [])
  · intro sep flat d2 hvals h
    rw [rehydrate_eq_rehydrateFrom] at h
    exact sentFree_rehydrateFrom sep flat [] d2 rfl hvals h

/-- C8 witness: with `"x"` omitted (sentinel) and `"y"` set to `1`, the
rehydration equals that of the filtered dict and the result `{"y": 1}` is
sentinel-free. -/
theorem C8_sentinel_never_leaks_witness :
    (rehydrate '.' [("x", Val.notProvided), ("y", .vint 1)]
      = rehydrate '.' ([("x", Val.notProvided), ("y", .vint 1)].filter (fun p =>
          match p.2 with | Val.notProvided => false | _ => true))) ∧
    sentFreePairs [("y", Val.vint 1)] = true := by
  constructor
  · exact C8_sentinel_never_leaks.1 '.' _
  · refine C8_sentinel_never_leaks.2 '.' [("x", Val.notProvided), ("y", .vint 1)]
      [("y", Val.vint 1)] ?_ rfl
    intro p hp
    rcases List.mem_cons.mp hp with rfl | hp2
    · exact Or.inl rfl
    rcases List.mem_cons.mp hp2 with rfl | hp3
    · exact Or.inr rfl
    · simp at hp3

/-- The argument kinds `_parse_params` synthesizes (config_base.py lines
242-272): `store_true` (only the `--help`/`-h` flag, line 297),
`argparse.BooleanOptionalAction` for `bool` fields, `nargs="*"` for
list/set/tuple fields, and plain single-value flags for everything else. -/
inductive OptKind where
  | storeTrue
  | boolOpt
  | single
  | star
  deriving DecidableEq, Repr

/-- A synthesized argparse argument: option strings, kind, value
conversion, declared choice set, the `required` keyword (`_parse_params`
never passes one, so argparse's default `False` always applies — the field
records what was passed), and the default value. -/
structure OptSpec where
  flags : List String
  kind : OptKind
  conv : String → Except PyExc Val
  choices : Option (List Val)
  required : Bool
  default : Val

/-- The declared-type shapes `_parse_params` distinguishes for non-nested
fields (config_base.py lines 246-272): `Any`, `bool`, `Literal` (carrying
the conversion for the type of its first literal, per
`tap.utils.get_literals`, and the literal values), collections (with their
element conversion when the element type is declared, else raw `str`),
unions (raw `str`, resolved later by pydantic), `dict` (parsed by
`YAML().load`), and any other plain type with its conversion. -/
inductive Ann0 where
  | aAny
  | aBool
  | aPrim (conv : String → Except PyExc Val)
  | aLiteral (conv : String → Except PyExc Val) (choices : List Val)
  | aColl (elem : Option (String → Except PyExc Val))
  | aUnion
  | aDict

/-- A schema tree: leaf fields carry their annotation shape, required flag
and declared default; nested `ConfigBase` fields carry their children (the
nested field's own required flag and default are used only by validation —
`_parse_params` recurses and synthesizes no flag for the nested field
itself, config_base.py lines 235-237). -/
inductive FieldTree where
  | leaf (name : String) (ann : Ann0) (required : Bool) (default : Val)
  | node (name : String) (required : Bool) (default : Val) (children : List FieldTree)

/-- Python `s.replace(c1, c2)` for one-character arguments. -/
def pyReplace (s : String) (c1 c2 : Char) : String :=
  { data := s.data.map (fun c => if c = c1 then c2 else c) }

/-- The kind, conversion and choice set `_parse_params` computes from a
field's annotation (config_base.py lines 243-272). -/
def annSpec (yaml : String → Except PyExc Val) : Ann0 → OptKind × (String → Except PyExc Val) × Option (List Val)
  | .aAny => (.single, pyStrConv, none)
  | .aBool => (.boolOpt, pyStrConv, none)
  | .aPrim conv => (.single, conv, none)
  | .aLiteral conv cs => (.single, conv, some cs)
  | .aColl (some conv) => (.star, conv, none)
  | .aColl none => (.star, pyStrConv, none)
  | .aUnion => (.single, pyStrConv, none)
  | .aDict => (.single, yaml, none)

/-- Model of `_parse_params` (config_base.py lines 221-290): walk the
fields depth-first; nested `ConfigBase` fields are expanded under
`parent_key + sep + name` and get no flag of their own; a leaf field
becomes one flag `--<path>` (underscores rewritten to hyphens when
requested), with default `_NOT_PROVIDED` whenever `require_default_file`
is set or the field is required, and the declared default otherwise.  The
`required` keyword is never passed to `add_argument`.  (Scope: schemas
whose synthesized option strings are pairwise distinct and distinct from
`--help`/`-h`; on a collision argparse would raise at synthesis time.) -/
def parseParams (yaml : String → Except PyExc Val) (requireFile urep : Bool) (sep : Char)
    (parentKey : String) (fields : List FieldTree) : List OptSpec :=
  match fields with
  | [] => []
  | .node name _ _ children :: rest =>
    let full := if parentKey == "" then name else parentKey ++ sep.toString ++ name
    parseParams yaml requireFile urep sep full children
      ++ parseParams yaml requireFile urep sep parentKey rest
  | .leaf name ann req dflt :: rest =>
    let full := if parentKey == "" then name else parentKey ++ sep.toString ++ name
    let flagName := if urep then pyReplace full '_' '-' else full
    let ks := annSpec yaml ann
    { flags := ["--" ++ flagName], kind := ks.1, conv := ks.2.1, choices := ks.2.2,
      required := false,
      default := if requireFile then Val.notProvided
        else if req then Val.notProvided else dflt }
      :: parseParams yaml requireFile urep sep parentKey rest

/-- The `--help` / `-h` argument added before `_parse_params` runs
(config_base.py line 297): `action="store_true"`, hence default `False`. -/
def helpSpec : OptSpec :=
  { flags := ["--help", "-h"], kind := .storeTrue, conv := pyStrConv, choices := none,
    required := false, default := .vbool false }

/-- A token that looks like an option to argparse: starts with the prefix
character `-` and is longer than just `-`.  (Scope: no negative-number
tokens, no bare `--` separator, no abbreviated option prefixes.) -/
def optionLike (s : String) : Bool :=
  match s.data with
  | '-' :: rest => !rest.isEmpty
  | _ => false

/-- A long option token (`--...`). -/
def isLong (s : String) : Bool :=
  match s.data with
  | '-' :: '-' :: _ => true
  | _ => false

/-- Split a token at its first `=` (Python `split("=", 1)`), character
level. -/
def splitEq1 : List Char → List Char × Option (List Char)
  | [] => ([], none)
  | c :: rest =>
    if c = '=' then ([], some rest)
    else
      let p := splitEq1 rest
      (c :: p.1, p.2)

/-- The part of a token before its first `=` (the whole token if none). -/
def eqKey (s : String) : String :=
  { data := (splitEq1 s.data).1 }

/-- The part of a token after its first `=`, when present. -/
def eqVal (s : String) : Option String :=
  ((splitEq1 s.data).2).map (fun l => { data := l })

/-- argparse's `dest` for a long option string: strip the leading `--`,
replace `-` with `_`. -/
def destOf (flag : String) : String :=
  pyReplace { data := flag.data.drop 2 } '-' '_'

/-- The `dest` of a synthesized argument (argparse derives it from the
first long option string). -/
def specDest (s : OptSpec) : String :=
  destOf (s.flags.headD "")

/-- Look a token up among the synthesized arguments; for
`BooleanOptionalAction` arguments the generated `--no-<name>` negative
option strings also match, with negative polarity. -/
def findSpec (specs : List OptSpec) (flag : String) : Option (OptSpec × Bool) :=
  match specs with
  | [] => none
  | s :: rest =>
    if s.flags.contains flag then some (s, true)
    else if s.kind = OptKind.boolOpt
        && (s.flags.map (fun f => "--no-" ++ ({ data := f.data.drop 2 } : String))).contains flag
      then some (s, false)
    else findSpec rest flag

/-- How a parse attempt fails: `usage` models `parser.error(...)` /
`SystemExit(2)`; `pyexc` models an uncaught Python exception (e.g.
`argparse.ArgumentError` from a duplicate `add_argument`, or a conversion
raising outside the caught classes). -/
inductive ParseErr where
  | usage
  | pyexc
  deriving DecidableEq, Repr

/-- Value conversion as performed inside parsing, through the overridden
`_get_value` (caught classes return the raw string); an exception outside
the caught classes propagates.  The overridden `_check_value` accepts
everything, so choices impose nothing here. -/
def applyConv (conv : String → Except PyExc Val) (s : String) : Except ParseErr Val :=
  match expedantic_get_value conv s with
  | .ok v => .ok v
  | .error _ => .error .pyexc

/-- Elementwise conversion for `nargs="*"` values. -/
def applyConvList (conv : String → Except PyExc Val) : List String → Except ParseErr (List Val)
  | [] => .ok []
  | s :: rest =>
    match applyConv conv s with
    | .error e => .error e
    | .ok v =>
      match applyConvList conv rest with
      | .error e => .error e
      | .ok vs => .ok (v :: vs)

theorem dropWhile_length_le {α : Type} (p : α → Bool) (l : List α) :
    (l.dropWhile p).length ≤ l.length := by
  induction l with
  | nil => simp
  | cons a rest ih =>
    rw [List.dropWhile_cons]
    by_cases h : p a = true
    · simp only [h, if_true, List.length_cons]
      omega
    · simp [h]

/-- State of the known-argument scan: values bound so far (by `dest`),
unrecognized tokens in order, and the positional config-file path when one
has been consumed. -/
structure ScanSt where
  bound : List (String × Val)
  extras : List String
  posArg : Option String

/-- One step of the known-argument scan: what the parser does with the
token `t` given the remaining tokens `rest` (`err` aborts the parse,
`cont` continues with the new state on the tokens not yet consumed). -/
inductive StepRes where
  | err (e : ParseErr)
  | cont (st : ScanSt) (rest : List String)

/-- The loop body of the model of
`argparse.ArgumentParser.parse_known_args` as exercised by `parse_args`
(with the `utils.ArgumentParser` overrides): `--name=value` binds a
single-value argument; a recognized flag consumes its arity (`store_true`
and boolean-optional flags consume nothing, a single-value flag requires
one following non-option token, a `nargs="*"` flag consumes the maximal
run of non-option tokens); an unrecognized option-like token goes to the
extras; a non-option token fills the pending required positional if any,
else goes to the extras.  Scope: exact option-string matches only (no
abbreviations), no `--` separator token, no negative-number tokens. -/
def scanStep (specs : List OptSpec) (hasPos : Bool) (t : String) (rest : List String)
    (st : ScanSt) : StepRes :=
  if optionLike t then
    if isLong t && (eqVal t).isSome then
      match findSpec specs (eqKey t) with
      | some (s, _) =>
        match s.kind with
        | .single =>
          match applyConv s.conv ((eqVal t).getD "") with
          | .error e => .err e
          | .ok v => .cont { st with bound := pySet st.bound (specDest s) v } rest
        | .star =>
          match applyConv s.conv ((eqVal t).getD "") with
          | .error e => .err e
          | .ok v => .cont { st with bound := pySet st.bound (specDest s) (.vlist [v]) } rest
        | _ => .err .usage
      | none => .cont { st with extras := st.extras ++ [t] } rest
    else
      match findSpec specs t with
      | some (s, pos) =>
        match s.kind with
        | .storeTrue => .cont { st with bound := pySet st.bound (specDest s) (.vbool true) } rest
        | .boolOpt => .cont { st with bound := pySet st.bound (specDest s) (.vbool pos) } rest
        | .single =>
          match rest with
          | [] => .err .usage
          | v :: rest2 =>
            if optionLike v then .err .usage
            else
              match applyConv s.conv v with
              | .error e => .err e
              | .ok v2 => .cont { st with bound := pySet st.bound (specDest s) v2 } rest2
        | .star =>
          match applyConvList s.conv (rest.takeWhile (fun v => !optionLike v)) with
          | .error e => .err e
          | .ok vs =>
            .cont { st with bound := pySet st.bound (specDest s) (.vlist vs) }
              (rest.dropWhile (fun v => !optionLike v))
      | none => .cont { st with extras := st.extras ++ [t] } rest
  else
    if hasPos && st.posArg.isNone then .cont { st with posArg := some t } rest
    else .cont { st with extras := st.extras ++ [t] } rest

theorem scanStep_length (specs : List OptSpec) (hasPos : Bool) (t : String)
    (rest : List String) (st : ScanSt) (st2 : ScanSt) (rest2 : List String)
    (h : scanStep specs hasPos t rest st = .cont st2 rest2) :
    rest2.length ≤ rest.length := by
  unfold scanStep at h
  iterate 10 (all_goals try split at h)
  all_goals try injection h
  all_goals subst_vars
  all_goals first
    | omega
    | simp
    | exact dropWhile_length_le _ _

/-- The known-argument scan: iterate `scanStep` over the tokens. -/
def scanKnown (specs : List OptSpec) (hasPos : Bool) (toks : List String) (st : ScanSt) :
    Except ParseErr ScanSt :=
  match toks with
  | [] => .ok st
  | t :: rest =>
    match _h : scanStep specs hasPos t rest st with
    | .err e => .error e
    | .cont st2 rest2 => scanKnown specs hasPos rest2 st2
  termination_by toks.length
  decreasing_by
    simp_wf
    have h2 := scanStep_length _ _ _ _ _ _ _ _h
    omega

/-- Model of `parse_known_args` as used by `parse_all_args_as_dict`
(utils.py line 160): run the scan, error when the required positional is
missing or a `required` option is unbound, then build the known-arguments
dict in registration order (positional first, then each argument's bound
value or its default). -/
def parseKnownArgs (specs : List OptSpec) (hasPos : Bool) (args : List String) :
    Except ParseErr (List (String × Val) × List String) :=
  match scanKnown specs hasPos args ⟨[], [], none⟩ with
  | .error e => .error e
  | .ok st =>
    if hasPos && st.posArg.isNone then .error .usage
    else if specs.any (fun s => s.required && (pyGet st.bound (specDest s)).isNone) then
      .error .usage
    else
      .ok ((if hasPos then [("_config_file_path", Val.vstr (st.posArg.getD ""))] else [])
        ++ specs.map (fun s => (specDest s, (pyGet st.bound (specDest s)).getD s.default)),
        st.extras)

/-- The `--key=value` splitting pass over the unknown tokens
(utils.py lines 166-172). -/
def processUnknown (extras : List String) : List String :=
  extras.flatMap (fun a =>
    if isLong a && (eqVal a).isSome then [eqKey a, (eqVal a).getD ""] else [a])

/-- The registration loop over the processed unknown tokens (utils.py
lines 174-180): every token starting with `--` is registered (stripped of
`--`) as `--<name>` with `type=str, nargs="?", const=True`; registering
the same option string twice raises `argparse.ArgumentError` (conflicting
option string), an uncaught exception. -/
def registerUnknownGo (processed : List String) (acc : List String) :
    Except ParseErr (List String) :=
  match processed with
  | [] => .ok acc
  | a :: rest =>
    if isLong a then
      let name : String := { data := a.data.drop 2 }
      if acc.contains name then .error .pyexc
      else registerUnknownGo rest (acc ++ [name])
    else registerUnknownGo rest acc

/-- Model of `unknown_parser.parse_args(unknown_args)` (utils.py line 182,
with `argument_default=SUPPRESS`): scan the original unknown tokens;
`--name=value` binds the value string, a bare registered `--name` binds
the following non-option token if any (else the const `True`); any token
that is neither a registered option nor consumed as a value makes
`parse_args` error out (`SystemExit(2)`). -/
def scanUnknown (names : List String) (toks : List String) (bound : List (String × Val)) :
    Except ParseErr (List (String × Val)) :=
  match toks with
  | [] => .ok bound
  | t :: rest =>
    if isLong t && (eqVal t).isSome then
      if names.contains ({ data := (eqKey t).data.drop 2 } : String) then
        scanUnknown names rest
          (pySet bound (destOf (eqKey t)) (.vstr ((eqVal t).getD "")))
      else .error .usage
    else if optionLike t then
      if isLong t && names.contains ({ data := t.data.drop 2 } : String) then
        match _hr : rest with
        | [] => scanUnknown names [] (pySet bound (destOf t) (.vbool true))
        | v :: rest2 =>
          if optionLike v then
            scanUnknown names rest (pySet bound (destOf t) (.vbool true))
          else
            scanUnknown names rest2 (pySet bound (destOf t) (.vstr v))
      else .error .usage
    else .error .usage
  termination_by toks.length
  decreasing_by
    all_goals simp_wf
    all_goals try omega
    all_goals subst_vars
    all_goals simp_wf

/-- Model of `ArgumentParser.parse_all_args_as_dict` (utils.py lines
159-187): parse known arguments, split `--key=value` unknowns, register
each unknown `--name`, reparse the unknown tokens with the tolerant
unknown-argument configuration, and update the known dict with the
unknown dict. -/
def parse_all_args_as_dict (specs : List OptSpec) (hasPos : Bool) (args : List String) :
    Except ParseErr (List (String × Val)) :=
  match parseKnownArgs specs hasPos args with
  | .error e => .error e
  | .ok (known, extras) =>
    match registerUnknownGo (processUnknown extras) [] with
    | .error e => .error e
    | .ok names =>
      match scanUnknown names extras [] with
      | .error e => .error e
      | .ok unknownDict => .ok (unknownDict.foldl (fun d p => pySet d p.1 p.2) known)

/-- The validation failures relevant here: an input key matching no
declared field (pydantic `extra_forbidden`, since `ConfigBase.model_config`
sets `extra="forbid"`, config_base.py lines 43-45) and a required field
absent from the input (pydantic `missing`). -/
inductive ValErr where
  | extraForbidden (key : String)
  | missingRequired (key : String)
  deriving DecidableEq, Repr

/-- The declared name of a schema field. -/
def fieldName : FieldTree → String
  | .leaf n _ _ _ => n
  | .node n _ _ _ => n

mutual

/-- Model of the fragment of pydantic's `model_validate` behavior that the
claims need, as configured by `ConfigBase.model_config` (`extra="forbid"`)
and documented in the spec (§7): an input key matching no declared field
is rejected (`extra_forbidden`); a required field missing from the input
is rejected (`missing`); nested models validate recursively; optional
missing fields are satisfied by their declared defaults.  Type coercion
and value constraints are outside this fragment (the inputs in scope are
well-typed), and only the first error is reported (the claims depend only
on acceptance vs. rejection). -/
def modelValidate (schema : List FieldTree) (d : List (String × Val)) : Except ValErr Unit :=
  match d.find? (fun p => !(schema.any (fun t => fieldName t == p.1))) with
  | some p => .error (.extraForbidden p.1)
  | none => validateFields schema d

/-- Per-field pass of `modelValidate`. -/
def validateFields (fields : List FieldTree) (d : List (String × Val)) : Except ValErr Unit :=
  match fields with
  | [] => .ok ()
  | .leaf n _ req _ :: rest =>
    if req && (pyGet d n).isNone then .error (.missingRequired n)
    else validateFields rest d
  | .node n req _ children :: rest =>
    match pyGet d n with
    | some (.vdict sub) =>
      match modelValidate children sub with
      | .error e => .error e
      | .ok _ => validateFields rest d
    | some _ => validateFields rest d
    | none =>
      if req then .error (.missingRequired n)
      else validateFields rest d

end

/-- Python `del d[k]` (the key is present at both `del` sites in
`parse_args`). -/
def pyDel (d : List (String × Val)) (k : String) : List (String × Val) :=
  d.filter (fun p => !(p.1 == k))

/-- The observable outcome of one `ConfigBase.parse_args` invocation:
`helpShown` models printing the schema help and `exit(0)`; `usageError`
models an argparse `parser.error` / `SystemExit(2)`; `pyError` models an
uncaught Python exception; `validationExit` models
`print_validation_errors` followed by `exit(1)`; `ok` returns the merged
mapping handed to `model_validate` when it succeeds. -/
inductive Outcome where
  | helpShown
  | usageError
  | pyError
  | validationExit (e : ValErr)
  | ok (merged : List (String × Val))
  deriving Repr

/-- Model of `ConfigBase.parse_args` (config_base.py lines 182-341):
synthesize the help flag and one flag per leaf field, parse all arguments
(tolerating unknown `--` flags), short-circuit to help, read the YAML
default file (`readFile` models the external read of the parsed YAML
mapping) in `require_default_file` mode, filter the sentinel and rehydrate
the flat parsed dict, deep-merge the file mapping with the CLI overlay,
and validate.  Printing and the returned instance's construction are
external. -/
def parse_args_model (yaml : String → Except PyExc Val) (requireFile urep : Bool) (sep : Char)
    (schema : List FieldTree) (readFile : String → List (String × Val))
    (args : List String) : Outcome :=
  let specs := helpSpec :: parseParams yaml requireFile urep sep "" schema
  match parse_all_args_as_dict specs requireFile args with
  | .error .usage => .usageError
  | .error .pyexc => .pyError
  | .ok parsed =>
    if truthy ((pyGet parsed "help").getD Val.vnone) then .helpShown
    else
      let parsed2 := pyDel parsed "help"
      let fileDict :=
        if requireFile then
          readFile (match pyGet parsed2 "_config_file_path" with
            | some (.vstr p) => p
            | _ => "")
        else []
      let parsed3 := if requireFile then pyDel parsed2 "_config_file_path" else parsed2
      match rehydrate sep parsed3 with
      | none => .pyError
      | some nested =>
        match updateRecursively (.vdict fileDict) nested with
        | some (.vdict merged) =>
          match modelValidate schema merged with
          | .error e => .validationExit e
          | .ok _ => .ok merged
        | _ => .pyError

theorem parseParams_required_false (yaml : String → Except PyExc Val)
    (rf urep : Bool) (sep : Char) :
    ∀ (fields : List FieldTree) (parent : String) (s : OptSpec),
      s ∈ parseParams yaml rf urep sep parent fields → s.required = false
  | [], _, _, h => by simp [parseParams] at h
  | .node n rq df children :: rest, parent, s, h => by
    rw [parseParams] at h
    rcases List.mem_append.mp h with h1 | h2
    · exact parseParams_required_false yaml rf urep sep children _ s h1
    · exact parseParams_required_false yaml rf urep sep rest parent s h2
  | .leaf n ann rq df :: rest, parent, s, h => by
    rw [parseParams] at h
    rcases List.mem_cons.mp h with h1 | h2
    · subst h1; rfl
    · exact parseParams_required_false yaml rf urep sep rest parent s h2

/-- The required flag and declared default of each leaf field, in walk
order. -/
def leavesReqDflt : List FieldTree → List (Bool × Val)
  | [] => []
  | .leaf _ _ req dflt :: rest => (req, dflt) :: leavesReqDflt rest
  | .node _ _ _ children :: rest => leavesReqDflt children ++ leavesReqDflt rest

theorem parseParams_defaults (yaml : String → Except PyExc Val)
    (rf urep : Bool) (sep : Char) :
    ∀ (fields : List FieldTree) (parent : String),
      (parseParams yaml rf urep sep parent fields).map (fun s => (s.required, s.default))
        = (leavesReqDflt fields).map (fun p =>
            (false, if rf || p.1 then Val.notProvided else p.2))
  | [], _ => by simp [parseParams, leavesReqDflt]
  | .node n rq df children :: rest, parent => by
    rw [parseParams, leavesReqDflt]
    simp only [List.map_append]
    rw [parseParams_defaults yaml rf urep sep children _,
      parseParams_defaults yaml rf urep sep rest parent]
  | .leaf n ann rq df :: rest, parent => by
    rw [parseParams, leavesReqDflt]
    simp only [List.map_cons]
    rw [parseParams_defaults yaml rf urep sep rest parent]
    cases rf <;> cases rq <;> simp

theorem specs_no_required (yaml : String → Except PyExc Val)
    (rf urep : Bool) (sep : Char) (schema : List FieldTree)
    (bound : List (String × Val)) :
    ((helpSpec :: parseParams yaml rf urep sep "" schema).any
      (fun s => s.required && (pyGet bound (specDest s)).isNone)) = false := by
  rw [List.any_eq_false]
  intro s hs
  rcases List.mem_cons.mp hs with h1 | h2
  · subst h1
    simp [helpSpec]
  · rw [parseParams_required_false yaml rf urep sep schema "" s h2]
    simp

theorem scanUnknown_nil (names : List String) (bound : List (String × Val)) :
    scanUnknown names [] bound = .ok bound := by
  rw [scanUnknown.eq_def]

theorem scanKnown_nil (specs : List OptSpec) (hasPos : Bool) (st : ScanSt) :
    scanKnown specs hasPos [] st = .ok st := by
  unfold scanKnown
  rfl

theorem scanKnown_help (yaml : String → Except PyExc Val) (rf urep : Bool) (sep : Char)
    (schema : List FieldTree) (t : String) (ht : t = "--help" ∨ t = "-h") :
    scanKnown (helpSpec :: parseParams yaml rf urep sep "" schema) rf [t] ⟨[], [], none⟩
      = .ok ⟨[("help", .vbool true)], [], none⟩ := by
  have hfind : findSpec (helpSpec :: parseParams yaml rf urep sep "" schema) t
      = some (helpSpec, true) := by
    rcases ht with rfl | rfl <;> (rw [findSpec]; simp [helpSpec])
  have hstep : scanStep (helpSpec :: parseParams yaml rf urep sep "" schema) rf t []
      ⟨[], [], none⟩ = .cont ⟨[("help", .vbool true)], [], none⟩ [] := by
    rcases ht with rfl | rfl <;>
      (unfold scanStep
       first
        | rw [show optionLike "--help" = true from rfl,
            show (isLong "--help" && (eqVal "--help").isSome) = false from rfl]
        | rw [show optionLike "-h" = true from rfl,
            show (isLong "-h" && (eqVal "-h").isSome) = false from rfl]
       simp only [if_true, Bool.false_eq_true, if_false, hfind]
       rfl)
  rw [scanKnown.eq_def]
  dsimp only
  split
  · next e heq =>
      rw [hstep] at heq
      exact absurd heq (by simp)
  · next st2 rest2 heq =>
      rw [hstep] at heq
      injection heq with h1 h2
      subst h1; subst h2
      rw [scanKnown_nil]

/-- C9 — `--help` handling in `parse_args`: with
`require_default_file=True` and no config-file path supplied, the
invocation does *not* print help and exit 0: `parse_known_args` errors out
over the missing required positional `_config_file_path` and the process
exits with argparse's usage-error status 2 before the help check is ever
reached.  Without the default file (second part), `--help` (and `-h`)
short-circuits as claimed: help is shown and the process exits 0 before
YAML loading, merging, or validation. -/
theorem C9_help_flag :
    (∀ (yaml : String → Except PyExc Val) (urep : Bool) (sep : Char)
        (schema : List FieldTree) (readFile : String → List (String × Val)),
      parse_args_model yaml true urep sep schema readFile ["--help"] = .usageError) ∧
    (∀ (yaml : String → Except PyExc Val) (urep : Bool) (sep : Char)
        (schema : List FieldTree) (readFile : String → List (String × Val)),
      parse_args_model yaml false urep sep schema readFile ["--help"] = .helpShown ∧
      parse_args_model yaml false urep sep schema readFile ["-h"] = .helpShown) := by
  constructor
  · intro yaml urep sep schema readFile
    rw [parse_args_model]
    rw [show parse_all_args_as_dict (helpSpec :: parseParams yaml true urep sep "" schema)
        true ["--help"] = .error .usage from by
      rw [parse_all_args_as_dict, parseKnownArgs,
        scanKnown_help yaml true urep sep schema "--help" (Or.inl rfl)]
      rfl]
  · intro yaml urep sep schema readFile
    constructor <;>
      (rw [parse_args_model]
       rw [show parse_all_args_as_dict (helpSpec :: parseParams yaml false urep sep "" schema)
           false _
           = .ok (((helpSpec :: parseParams yaml false urep sep "" schema)).map
               (fun s => (specDest s, (pyGet [("help", .vbool true)] (specDest s)).getD s.default)))
           from by
         rw [parse_all_args_as_dict, parseKnownArgs]
         first
          | rw [scanKnown_help yaml false urep sep schema "--help" (Or.inl rfl)]
          | rw [scanKnown_help yaml false urep sep schema "-h" (Or.inr rfl)]
         simp only [Bool.false_and, if_false, Bool.false_eq_true,
           specs_no_required yaml false urep sep schema]
         rw [show processUnknown [] = [] from rfl,
           show registerUnknownGo [] [] = .ok [] from rfl]
         dsimp only
         rw [scanUnknown_nil]
         rfl]
       simp only [List.map_cons]
       rw [show specDest helpSpec = "help" from rfl]
       rw [show pyGet [("help", Val.vbool true)] "help" = some (.vbool true) from rfl]
       rfl)

/-- C3 counterexample — a schema with one required field `x`, parsed with
`require_default_file=False` and an empty argument list: the
argument-parsing layer does *not* reject the invocation (the synthesized
flag is not `required`; the parse succeeds, binding the `NOT_PROVIDED`
sentinel), and the missing-field error is raised by pydantic validation
(`exit(1)` after printing), not by the argument parser — refuting the
claim that omitting a required field's flag "is an error raised by the
argument parser itself" (config_base.py lines 274-277, 299, 333-337). -/
theorem C3_counterexample :
    (parseParams pyStrConv false false '.' ""
        [.leaf "x" (.aPrim pyIntConv) true .vnone]).map (fun s => s.required)
      = [false] ∧
    parse_all_args_as_dict
        (helpSpec :: parseParams pyStrConv false false '.' ""
          [.leaf "x" (.aPrim pyIntConv) true .vnone]) false []
      = .ok [("help", .vbool false), ("x", .notProvided)] ∧
    parse_args_model pyStrConv false false '.'
        [.leaf "x" (.aPrim pyIntConv) true .vnone] (fun _ => []) []
      = .validationExit (.missingRequired "x") := by
  have hp : parseParams pyStrConv false false '.' ""
      [FieldTree.leaf "x" (.aPrim pyIntConv) true .vnone]
      = [{ flags := ["--x"], kind := .single, conv := pyIntConv, choices := none,
           required := false, default := .notProvided }] := by
    rw [parseParams, parseParams]
    rfl
  have hknown : parseKnownArgs
      (helpSpec :: parseParams pyStrConv false false '.' ""
        [.leaf "x" (.aPrim pyIntConv) true .vnone]) false []
      = .ok ([("help", .vbool false), ("x", .notProvided)], []) := by
    rw [hp, parseKnownArgs, scanKnown_nil]
    rfl
  have hparse : parse_all_args_as_dict
      (helpSpec :: parseParams pyStrConv false false '.' ""
        [.leaf "x" (.aPrim pyIntConv) true .vnone]) false []
      = .ok [("help", .vbool false), ("x", .notProvided)] := by
    rw [parse_all_args_as_dict, hknown]
    dsimp only
    rw [show registerUnknownGo (processUnknown []) [] = .ok [] from rfl]
    dsimp only
    rw [scanUnknown_nil]
    rfl
  refine ⟨by rw [hp]; rfl, hparse, ?_⟩
  rw [parse_args_model, hparse]
  have hmv : modelValidate [FieldTree.leaf "x" (Ann0.aPrim pyIntConv) true Val.vnone] []
      = .error (.missingRequired "x") := by
    simp [modelValidate, validateFields, pyGet]
  show (match modelValidate [FieldTree.leaf "x" (Ann0.aPrim pyIntConv) true Val.vnone] [] with
    | Except.error e => Outcome.validationExit e
    | Except.ok _ => Outcome.ok []) = _
  rw [hmv]

/-- C3 amended — with `require_default_file=False`, `_parse_params` never
marks any synthesized flag `required`: a required field's flag is given
the `NOT_PROVIDED` sentinel as its argparse default and an optional
field's flag the declared schema default (config_base.py lines 274-282),
so omission of a required field's flag is accepted by the argument parser
and surfaces later, at pydantic validation. -/
theorem C3_required_fields_not_cli_required (yaml : String → Except PyExc Val)
    (urep : Bool) (sep : Char) (fields : List FieldTree) (parent : String) :
    (parseParams yaml false urep sep parent fields).map
        (fun s => (s.required, s.default))
      = (leavesReqDflt fields).map (fun p =>
          (false, if p.1 then Val.notProvided else p.2)) := by
  rw [parseParams_defaults]
  simp

/-- `split("=", 1)` on a chunk with no `=`: no split happens. -/
theorem splitEq1_sepFree (l : List Char) (h : '=' ∉ l) : splitEq1 l = (l, none) := by
  induction l with
  | nil => rfl
  | cons c cs ih =>
    have hc : ¬ c = '=' := fun he => h (by simp [he])
    have hcs : '=' ∉ cs := fun hm => h (List.mem_cons_of_mem _ hm)
    simp [splitEq1, hc, ih hcs]

/-- `split("=", 1)` at the first `=`. -/
theorem splitEq1_append (l r : List Char) (h : '=' ∉ l) :
    splitEq1 (l ++ '=' :: r) = (l, some r) := by
  induction l with
  | nil => simp [splitEq1]
  | cons c cs ih =>
    have hc : ¬ c = '=' := fun he => h (by simp [he])
    have hcs : '=' ∉ cs := fun hm => h (List.mem_cons_of_mem _ hm)
    simp [splitEq1, hc, ih hcs]

theorem data_dd (k : String) : ("--" ++ k).data = '-' :: '-' :: k.data := by
  rw [String.data_append]
  rfl

theorem eqVal_sepFree (s : String) (h : '=' ∉ s.data) : eqVal s = none := by
  rw [eqVal, splitEq1_sepFree s.data h]
  rfl

/-- `=` does not occur in `--k` when it does not occur in `k`. -/
theorem noEq_dd (k : String) (heqk : '=' ∉ k.data) : '=' ∉ ("--" ++ k).data := by
  rw [data_dd]
  intro hm
  rcases List.mem_cons.mp hm with h1 | hm2
  · exact absurd h1 (by decide)
  rcases List.mem_cons.mp hm2 with h1 | h3
  · exact absurd h1 (by decide)
  · exact heqk h3

theorem data_ddeq (k v : String) :
    ("--" ++ k ++ "=" ++ v).data = ('-' :: '-' :: k.data) ++ '=' :: v.data := by
  simp [String.data_append]

theorem eqKey_ddeq (k v : String) (heqk : '=' ∉ k.data) :
    eqKey ("--" ++ k ++ "=" ++ v) = "--" ++ k := by
  rw [eqKey, data_ddeq,
    splitEq1_append _ _ (by rw [← data_dd]; exact noEq_dd k heqk)]
  exact String.ext (by rw [data_dd])

theorem eqVal_ddeq (k v : String) (heqk : '=' ∉ k.data) :
    eqVal ("--" ++ k ++ "=" ++ v) = some v := by
  rw [eqVal, data_ddeq,
    splitEq1_append _ _ (by rw [← data_dd]; exact noEq_dd k heqk)]
  rfl

theorem drop2_dd (k : String) : ({ data := ("--" ++ k).data.drop 2 } : String) = k := by
  rw [data_dd]
  rfl

/-- `s.replace(c1, c2)` is the identity when `c1` does not occur. -/
theorem map_replace_id (c1 c2 : Char) (l : List Char) (h : c1 ∉ l) :
    l.map (fun c => if c = c1 then c2 else c) = l := by
  induction l with
  | nil => rfl
  | cons c cs ih =>
    have hc : ¬ c = c1 := fun he => h (by simp [he])
    have hcs : c1 ∉ cs := fun hm => h (List.mem_cons_of_mem _ hm)
    simp [hc, ih hcs]

theorem pyReplace_id (s : String) (c1 c2 : Char) (h : c1 ∉ s.data) :
    pyReplace s c1 c2 = s := by
  rw [pyReplace, map_replace_id c1 c2 s.data h]

theorem destOf_dd (k : String) (hdash : '-' ∉ k.data) : destOf ("--" ++ k) = k := by
  rw [destOf, drop2_dd]
  exact pyReplace_id k '-' '_' hdash

theorem optionLike_of_isLong (v : String) (h : isLong v = true) : optionLike v = true := by
  unfold isLong at h
  unfold optionLike
  split at h
  · next heq =>
    rw [heq]
    rfl
  · exact absurd h (by simp)

theorem isLong_eq_false (v : String) (h : optionLike v = false) : isLong v = false := by
  cases h2 : isLong v with
  | false => rfl
  | true => rw [optionLike_of_isLong v h2] at h; exact absurd h (by simp)

/-- One scan step on an unrecognized long flag (no `=`): the token goes to
the extras and nothing is consumed. -/
theorem scanStep_unknown_flag (specs : List OptSpec) (hasPos : Bool) (k : String)
    (rest : List String) (st : ScanSt)
    (heqk : '=' ∉ k.data) (hfind : findSpec specs ("--" ++ k) = none) :
    scanStep specs hasPos ("--" ++ k) rest st
      = .cont { st with extras := st.extras ++ ["--" ++ k] } rest := by
  unfold scanStep
  rw [show optionLike ("--" ++ k) = true from rfl,
    eqVal_sepFree _ (noEq_dd k heqk)]
  simp only [Option.isSome_none, Bool.and_false, Bool.false_eq_true, if_false, if_true]
  rw [hfind]

/-- One scan step on an unrecognized `--key=value` token: the whole token
goes to the extras. -/
theorem scanStep_unknown_eqform (specs : List OptSpec) (hasPos : Bool) (k v : String)
    (rest : List String) (st : ScanSt)
    (heqk : '=' ∉ k.data) (hfind : findSpec specs ("--" ++ k) = none) :
    scanStep specs hasPos ("--" ++ k ++ "=" ++ v) rest st
      = .cont { st with extras := st.extras ++ ["--" ++ k ++ "=" ++ v] } rest := by
  unfold scanStep
  rw [show optionLike ("--" ++ k ++ "=" ++ v) = true from rfl,
    show isLong ("--" ++ k ++ "=" ++ v) = true from rfl,
    eqVal_ddeq k v heqk]
  simp only [Option.isSome_some, Bool.and_true, if_true]
  rw [eqKey_ddeq k v heqk, hfind]

/-- One scan step on a non-option token with no positional declared: it
goes to the extras. -/
theorem scanStep_plain (specs : List OptSpec) (t : String) (rest : List String)
    (st : ScanSt) (ht : optionLike t = false) :
    scanStep specs false t rest st
      = .cont { st with extras := st.extras ++ [t] } rest := by
  unfold scanStep
  rw [ht]
  simp

/-- Unfolding step of the known-argument scan on a continuing step. -/
theorem scanKnown_cons (specs : List OptSpec) (hasPos : Bool) (t : String)
    (rest : List String) (st st2 : ScanSt) (rest2 : List String)
    (h : scanStep specs hasPos t rest st = .cont st2 rest2) :
    scanKnown specs hasPos (t :: rest) st = scanKnown specs hasPos rest2 st2 := by
  rw [scanKnown.eq_def]
  dsimp only
  split
  · next e heq =>
      rw [h] at heq
      exact absurd heq (by simp)
  · next st3 rest3 heq =>
      rw [h] at heq
      injection heq with h1 h2
      subst h1; subst h2
      rfl

/-- When the scan binds nothing and no synthesized argument is `required`,
`parse_known_args` returns every argument\'s default and the unrecognized
tokens. -/
theorem parseKnownArgs_of_scan (specs : List OptSpec) (args extras : List String)
    (hreq : ∀ s ∈ specs, s.required = false)
    (hscan : scanKnown specs false args ⟨[], [], none⟩ = .ok ⟨[], extras, none⟩) :
    parseKnownArgs specs false args
      = .ok (specs.map (fun s => (specDest s, s.default)), extras) := by
  rw [parseKnownArgs, hscan]
  show (if (specs.any fun s => s.required && (pyGet [] (specDest s)).isNone) = true
      then Except.error ParseErr.usage
      else .ok (([] : List (String × Val))
        ++ specs.map (fun s => (specDest s, (pyGet [] (specDest s)).getD s.default)),
        extras)) = _
  rw [show (specs.any fun s => s.required && (pyGet [] (specDest s)).isNone) = false from by
    rw [List.any_eq_false]
    intro s hs
    rw [hreq s hs]
    simp]
  rfl

theorem processUnknown_flag (k : String) (rest : List String) (heqk : '=' ∉ k.data) :
    processUnknown (("--" ++ k) :: rest) = ("--" ++ k) :: processUnknown rest := by
  rw [processUnknown, processUnknown, List.flatMap_cons]
  rw [eqVal_sepFree _ (noEq_dd k heqk)]
  simp

theorem processUnknown_plain (t : String) (rest : List String) (ht : isLong t = false) :
    processUnknown (t :: rest) = t :: processUnknown rest := by
  rw [processUnknown, processUnknown, List.flatMap_cons, ht]
  simp

theorem processUnknown_eqform (k v : String) (rest : List String) (heqk : '=' ∉ k.data) :
    processUnknown (("--" ++ k ++ "=" ++ v) :: rest)
      = ("--" ++ k) :: v :: processUnknown rest := by
  rw [processUnknown, processUnknown, List.flatMap_cons]
  rw [show isLong ("--" ++ k ++ "=" ++ v) = true from rfl,
    eqVal_ddeq k v heqk, eqKey_ddeq k v heqk]
  simp

theorem registerUnknownGo_flag (k : String) (rest acc : List String)
    (hacc : acc.contains k = false) :
    registerUnknownGo (("--" ++ k) :: rest) acc = registerUnknownGo rest (acc ++ [k]) := by
  rw [registerUnknownGo]
  rw [show isLong ("--" ++ k) = true from rfl]
  simp only [if_true]
  rw [drop2_dd k, hacc]
  simp

theorem registerUnknownGo_plain (t : String) (rest acc : List String)
    (ht : isLong t = false) :
    registerUnknownGo (t :: rest) acc = registerUnknownGo rest acc := by
  rw [registerUnknownGo, ht]
  simp

/-- The unknown-argument reparse on a registered `--key value` pair binds
the raw value string. -/
theorem scanUnknown_pair (names : List String) (k v : String)
    (bound : List (String × Val))
    (hmem : names.contains k = true) (heqk : '=' ∉ k.data) (hdash : '-' ∉ k.data)
    (hv : optionLike v = false) :
    scanUnknown names [("--" ++ k), v] bound = .ok (pySet bound k (.vstr v)) := by
  rw [scanUnknown.eq_def]
  dsimp only
  rw [eqVal_sepFree _ (noEq_dd k heqk)]
  simp only [Option.isSome_none, Bool.and_false, Bool.false_eq_true, if_false]
  rw [show optionLike ("--" ++ k) = true from rfl,
    show isLong ("--" ++ k) = true from rfl, drop2_dd k, hmem]
  simp only [Bool.and_self, if_true]
  rw [hv]
  simp only [Bool.false_eq_true, if_false]
  rw [destOf_dd k hdash, scanUnknown_nil]

/-- The unknown-argument reparse on a registered `--key=value` token binds
the part after the `=` as a raw string. -/
theorem scanUnknown_eqform (names : List String) (k v : String)
    (bound : List (String × Val))
    (hmem : names.contains k = true) (heqk : '=' ∉ k.data) (hdash : '-' ∉ k.data) :
    scanUnknown names [("--" ++ k ++ "=" ++ v)] bound
      = .ok (pySet bound k (.vstr v)) := by
  rw [scanUnknown.eq_def]
  dsimp only
  rw [show isLong ("--" ++ k ++ "=" ++ v) = true from rfl, eqVal_ddeq k v heqk]
  simp only [Option.isSome_some, Bool.true_and, Bool.and_true, if_true]
  rw [eqKey_ddeq k v heqk, drop2_dd k, hmem]
  simp only [if_true]
  rw [destOf_dd k hdash, scanUnknown_nil]
  rfl

/-- The unknown-argument reparse on a registered bare trailing `--key`
binds the `const`, boolean `True`. -/
theorem scanUnknown_bare (names : List String) (k : String)
    (bound : List (String × Val))
    (hmem : names.contains k = true) (heqk : '=' ∉ k.data) (hdash : '-' ∉ k.data) :
    scanUnknown names [("--" ++ k)] bound = .ok (pySet bound k (.vbool true)) := by
  rw [scanUnknown.eq_def]
  dsimp only
  rw [eqVal_sepFree _ (noEq_dd k heqk)]
  simp only [Option.isSome_none, Bool.and_false, Bool.false_eq_true, if_false]
  rw [show optionLike ("--" ++ k) = true from rfl,
    show isLong ("--" ++ k) = true from rfl, drop2_dd k, hmem]
  simp only [Bool.and_self, if_true]
  rw [destOf_dd k hdash, scanUnknown_nil]

/-- An unrecognized `--key value` pair: the parse layer succeeds and
appends the raw value string under `key` after the known defaults. -/
theorem parseAll_unknown_pair (specs : List OptSpec) (k v : String)
    (hreq : ∀ s ∈ specs, s.required = false)
    (hfind : findSpec specs ("--" ++ k) = none)
    (heqk : '=' ∉ k.data) (hdash : '-' ∉ k.data)
    (hdest : pyGet (specs.map (fun s => (specDest s, s.default))) k = none)
    (hv : optionLike v = false) :
    parse_all_args_as_dict specs false [("--" ++ k), v]
      = .ok (specs.map (fun s => (specDest s, s.default)) ++ [(k, .vstr v)]) := by
  have hscan : scanKnown specs false [("--" ++ k), v] ⟨[], [], none⟩
      = .ok ⟨[], [("--" ++ k), v], none⟩ := by
    rw [scanKnown_cons _ _ _ _ _ _ _
        (scanStep_unknown_flag specs false k [v] ⟨[], [], none⟩ heqk hfind),
      scanKnown_cons _ _ _ _ _ _ _
        (scanStep_plain specs v [] _ hv),
      scanKnown_nil]
    rfl
  rw [parse_all_args_as_dict, parseKnownArgs_of_scan specs _ _ hreq hscan]
  dsimp only
  rw [processUnknown_flag k [v] heqk,
    processUnknown_plain v [] (isLong_eq_false v hv),
    show processUnknown [] = [] from rfl,
    registerUnknownGo_flag k [v] [] rfl,
    List.nil_append,
    registerUnknownGo_plain v [] [k] (isLong_eq_false v hv),
    show registerUnknownGo [] [k] = .ok [k] from rfl]
  dsimp only
  rw [scanUnknown_pair [k] k v [] (by simp) heqk hdash hv]
  show Except.ok (([(k, Val.vstr v)] : List (String × Val)).foldl
      (fun d p => pySet d p.1 p.2) (specs.map (fun s => (specDest s, s.default)))) = _
  simp only [List.foldl_cons, List.foldl_nil]
  exact congrArg Except.ok (pySet_fresh _ _ _ hdest)

/-- An unrecognized `--key=value` token: the parse layer succeeds and
appends the part after `=` as a raw string under `key`. -/
theorem parseAll_unknown_eqform (specs : List OptSpec) (k v : String)
    (hreq : ∀ s ∈ specs, s.required = false)
    (hfind : findSpec specs ("--" ++ k) = none)
    (heqk : '=' ∉ k.data) (hdash : '-' ∉ k.data)
    (hdest : pyGet (specs.map (fun s => (specDest s, s.default))) k = none)
    (hv : optionLike v = false) :
    parse_all_args_as_dict specs false [("--" ++ k ++ "=" ++ v)]
      = .ok (specs.map (fun s => (specDest s, s.default)) ++ [(k, .vstr v)]) := by
  have hscan : scanKnown specs false [("--" ++ k ++ "=" ++ v)] ⟨[], [], none⟩
      = .ok ⟨[], [("--" ++ k ++ "=" ++ v)], none⟩ := by
    rw [scanKnown_cons _ _ _ _ _ _ _
        (scanStep_unknown_eqform specs false k v [] ⟨[], [], none⟩ heqk hfind),
      scanKnown_nil]
    rfl
  rw [parse_all_args_as_dict, parseKnownArgs_of_scan specs _ _ hreq hscan]
  dsimp only
  rw [processUnknown_eqform k v [] heqk,
    show processUnknown [] = [] from rfl,
    registerUnknownGo_flag k [v] [] rfl,
    List.nil_append,
    registerUnknownGo_plain v [] [k] (isLong_eq_false v hv),
    show registerUnknownGo [] [k] = .ok [k] from rfl]
  dsimp only
  rw [scanUnknown_eqform [k] k v [] (by simp) heqk hdash]
  show Except.ok (([(k, Val.vstr v)] : List (String × Val)).foldl
      (fun d p => pySet d p.1 p.2) (specs.map (fun s => (specDest s, s.default)))) = _
  simp only [List.foldl_cons, List.foldl_nil]
  exact congrArg Except.ok (pySet_fresh _ _ _ hdest)

/-- An unrecognized bare trailing `--key`: the parse layer succeeds and
appends boolean `True` under `key`. -/
theorem parseAll_unknown_bare (specs : List OptSpec) (k : String)
    (hreq : ∀ s ∈ specs, s.required = false)
    (hfind : findSpec specs ("--" ++ k) = none)
    (heqk : '=' ∉ k.data) (hdash : '-' ∉ k.data)
    (hdest : pyGet (specs.map (fun s => (specDest s, s.default))) k = none) :
    parse_all_args_as_dict specs false [("--" ++ k)]
      = .ok (specs.map (fun s => (specDest s, s.default)) ++ [(k, .vbool true)]) := by
  have hscan : scanKnown specs false [("--" ++ k)] ⟨[], [], none⟩
      = .ok ⟨[], [("--" ++ k)], none⟩ := by
    rw [scanKnown_cons _ _ _ _ _ _ _
        (scanStep_unknown_flag specs false k [] ⟨[], [], none⟩ heqk hfind),
      scanKnown_nil]
    rfl
  rw [parse_all_args_as_dict, parseKnownArgs_of_scan specs _ _ hreq hscan]
  dsimp only
  rw [processUnknown_flag k [] heqk,
    show processUnknown [] = [] from rfl,
    registerUnknownGo_flag k [] [] rfl,
    List.nil_append,
    show registerUnknownGo [] [k] = .ok [k] from rfl]
  dsimp only
  rw [scanUnknown_bare [k] k [] (by simp) heqk hdash]
  show Except.ok (([(k, Val.vbool true)] : List (String × Val)).foldl
      (fun d p => pySet d p.1 p.2) (specs.map (fun s => (specDest s, s.default)))) = _
  simp only [List.foldl_cons, List.foldl_nil]
  exact congrArg Except.ok (pySet_fresh _ _ _ hdest)

/-- C2 amended — the argument-*parsing* layer does tolerate unrecognized
flags: for any synthesized argument set with no `required` argument and an
unknown key (no `=`/`-`, not colliding with any declared option string or
`dest`), `parse_all_args_as_dict` succeeds and appends the unknown entry
after the known arguments\' values — the raw value string for
`--key value` and `--key=value`, boolean `True` for a bare trailing
`--key` (utils.py lines 159-187).  Tolerance ends at the parse layer: the
merged bag is handed to `model_validate`, whose `extra="forbid"`
configuration rejects every unknown key, so the `parse_args` invocation
itself exits with a validation error (see the counterexample). -/
theorem C2_unknown_flag_bag (specs : List OptSpec) (k v : String)
    (hreq : ∀ s ∈ specs, s.required = false)
    (hfind : findSpec specs ("--" ++ k) = none)
    (_hne : k.data ≠ [])
    (heqk : '=' ∉ k.data) (hdash : '-' ∉ k.data)
    (hdest : pyGet (specs.map (fun s => (specDest s, s.default))) k = none)
    (hv : optionLike v = false) :
    parse_all_args_as_dict specs false [("--" ++ k), v]
      = .ok (specs.map (fun s => (specDest s, s.default)) ++ [(k, .vstr v)]) ∧
    parse_all_args_as_dict specs false [("--" ++ k ++ "=" ++ v)]
      = .ok (specs.map (fun s => (specDest s, s.default)) ++ [(k, .vstr v)]) ∧
    parse_all_args_as_dict specs false [("--" ++ k)]
      = .ok (specs.map (fun s => (specDest s, s.default)) ++ [(k, .vbool true)]) :=
  ⟨parseAll_unknown_pair specs k v hreq hfind heqk hdash hdest hv,
   parseAll_unknown_eqform specs k v hreq hfind heqk hdash hdest hv,
   parseAll_unknown_bare specs k hreq hfind heqk hdash hdest⟩

theorem C2_unknown_flag_bag_witness :
    parse_all_args_as_dict [helpSpec] false ["--unknown_flag", "5"]
      = .ok [("help", Val.vbool false), ("unknown_flag", Val.vstr "5")] ∧
    parse_all_args_as_dict [helpSpec] false ["--unknown_flag=5"]
      = .ok [("help", Val.vbool false), ("unknown_flag", Val.vstr "5")] ∧
    parse_all_args_as_dict [helpSpec] false ["--unknown_flag"]
      = .ok [("help", Val.vbool false), ("unknown_flag", Val.vbool true)] := by
  have h := C2_unknown_flag_bag [helpSpec] "unknown_flag" "5"
    (by intro s hs; simp only [List.mem_singleton] at hs; subst hs; rfl)
    rfl (by decide) (by decide) (by decide) rfl rfl
  exact ⟨h.1, h.2.1, h.2.2⟩

/-- C2 counterexample — an invocation with the unknown flag
`--unknown_flag 5` against a one-field schema: the parse layer collects the
pair into the bag (first conjunct), but the invocation does *not* "complete
without a hard failure": `model_config`\'s `extra="forbid"`
(config_base.py lines 43-45) makes `model_validate` reject the unknown key,
and `parse_args` prints the validation error and calls `exit(1)`
(config_base.py lines 333-337). -/
theorem C2_counterexample :
    parse_all_args_as_dict
        (helpSpec :: parseParams pyStrConv false false '.' ""
          [.leaf "optional" (.aPrim pyIntConv) false (.vint 1)]) false
        ["--unknown_flag", "5"]
      = .ok [("help", .vbool false), ("optional", .vint 1), ("unknown_flag", .vstr "5")] ∧
    parse_args_model pyStrConv false false '.'
        [.leaf "optional" (.aPrim pyIntConv) false (.vint 1)] (fun _ => [])
        ["--unknown_flag", "5"]
      = .validationExit (.extraForbidden "unknown_flag") := by
  have hp2 : parseParams pyStrConv false false '.' ""
      [FieldTree.leaf "optional" (Ann0.aPrim pyIntConv) false (Val.vint 1)]
      = [{ flags := ["--optional"], kind := .single, conv := pyIntConv, choices := none,
           required := false, default := .vint 1 }] := by
    rw [parseParams, parseParams]
    rfl
  have h1 := parseAll_unknown_pair
    [helpSpec,
      { flags := ["--optional"], kind := .single, conv := pyIntConv, choices := none,
        required := false, default := .vint 1 }]
    "unknown_flag" "5"
    (by intro s hs
        rcases List.mem_cons.mp hs with h | h
        · subst h; rfl
        · simp only [List.mem_singleton] at h; subst h; rfl)
    rfl (by decide) (by decide) rfl rfl
  have h1' : parse_all_args_as_dict
      (helpSpec :: parseParams pyStrConv false false '.' ""
        [.leaf "optional" (.aPrim pyIntConv) false (.vint 1)]) false
      ["--unknown_flag", "5"]
      = .ok [("help", .vbool false), ("optional", .vint 1), ("unknown_flag", .vstr "5")] := by
    rw [hp2]
    exact h1
  refine ⟨h1', ?_⟩
  rw [parse_args_model, h1']
  have hmv : modelValidate [FieldTree.leaf "optional" (Ann0.aPrim pyIntConv) false (Val.vint 1)]
      [("optional", Val.vint 1), ("unknown_flag", Val.vstr "5")]
      = .error (.extraForbidden "unknown_flag") := by
    simp [modelValidate, validateFields, fieldName, pyGet]
  show (match modelValidate
      [FieldTree.leaf "optional" (Ann0.aPrim pyIntConv) false (Val.vint 1)]
      [("optional", Val.vint 1), ("unknown_flag", Val.vstr "5")] with
    | Except.error e => Outcome.validationExit e
    | Except.ok _ =>
        Outcome.ok [("optional", Val.vint 1), ("unknown_flag", Val.vstr "5")]) = _
  rw [hmv]

end Expedantic
